import Mathlib

set_option maxRecDepth 16000

/-!
Verification of the tap-protocol-helper signing core.

Shallow embedding of the TypeScript sources:
  * `src/core/buffer.ts`  — big-integer / byte-buffer codec (`toBigInt`,
    `toBigIntStr`, `fromBigInt`, `fromBigIntStr`);
  * `src/utils.ts` (the file whose claim line numbers are cited as
    `src/src/core/index.ts`) — `sign`, `verify`, `signAndVerify`, `sha256`,
    `splitSignature`, `joinSignature`, `getKeypairBuff`;
  * `src/index.ts` — the protocol assemblers (`signMint`, `signVerification`).

JS dynamic values are modelled by the inductive `JVal`; byte buffers are
`List Nat` (each entry is one byte); thrown JS errors are `JsError` values
propagated through `Except`; the external secp256k1 curve library and the
SHA-256 primitive are black-box collaborators, modelled by the `Ecc` / `Env`
structures exactly at the interface the sources use.
-/

deriving instance DecidableEq for Except

namespace TapHelper

/-- A thrown JS error: its constructor name and its message.  Template-string
interpolation of an error value renders as "name: message". -/
structure JsError where
  name : String
  message : String
deriving DecidableEq, Repr

/-- Rendering of an error by a JS template string, as in
`Failed to sign the message: ${error}`. -/
def JsError.render (e : JsError) : String := e.name ++ ": " ++ e.message

mutual

/-- JS runtime values, as far as this library inspects them. -/
inductive JVal where
  | null
  | undefined
  | bool (b : Bool)
  | num (n : Int)
  | str (s : String)
  | arr (elems : JArr)
  | obj (fields : JObj)
  | buf (bytes : List Nat)
deriving DecidableEq

/-- A JS array of values. -/
inductive JArr where
  | nil
  | cons (hd : JVal) (tl : JArr)
deriving DecidableEq

/-- The ordered own-property list of a JS object (JS objects preserve
string-key insertion order, which `JSON.stringify` follows). -/
inductive JObj where
  | nil
  | cons (key : String) (val : JVal) (tl : JObj)
deriving DecidableEq

end

def JObj.ofList : List (String × JVal) → JObj
  | [] => .nil
  | (k, v) :: rest => .cons k v (JObj.ofList rest)

/-- Object literal, as in the TypeScript sources. -/
def mkObj (fields : List (String × JVal)) : JVal := .obj (JObj.ofList fields)

/-- First binding of a key in a property list (JS object keys are unique, and
assignment below keeps them unique). A missing property reads as undefined. -/
def JObj.lookup : JObj → String → JVal
  | .nil, _ => .undefined
  | .cons k' v rest, k => if k' = k then v else JObj.lookup rest k

/-- Property write `o[k] = v`: overwrites in place (keeping the key position)
or appends a new key at the end, as JS object assignment does. -/
def JObj.set : JObj → String → JVal → JObj
  | .nil, k, v => .cons k v .nil
  | .cons k' v' rest, k, v =>
      if k' = k then .cons k' v rest else .cons k' v' (JObj.set rest k v)

/-- Whether a key is present at all (even with value undefined). -/
def JObj.hasKey : JObj → String → Bool
  | .nil, _ => false
  | .cons k' _ rest, k => k' = k || JObj.hasKey rest k

/-- Property read `v.k`.  On an object this is the own property (or undefined
when absent).  On every other value it is modelled as undefined: the only
non-object reads the sources perform are `("…").salt`, `("…").sig` and the
like on primitives, which are undefined in JS (no call site reads a property
of null or undefined, which would throw instead). -/
def getField (v : JVal) (k : String) : JVal :=
  match v with
  | .obj fields => fields.lookup k
  | _ => .undefined

/-- Property write `v.k = x`.  Mutates objects; on primitives JS sloppy-mode
assignment is a silent no-op (no modelled call site assigns to a primitive:
the one code path that could, `signVerification`, throws earlier in `sign`). -/
def setField (v : JVal) (k : String) (x : JVal) : JVal :=
  match v with
  | .obj fields => .obj (fields.set k x)
  | other => other

/-- JS truthiness of the values this library branches on (NaN and other
exotic falsy values do not arise here). -/
def truthy : JVal → Bool
  | .null => false
  | .undefined => false
  | .bool b => b
  | .num n => if n = 0 then false else true
  | .str s => if s = "" then false else true
  | .arr _ => true
  | .obj _ => true
  | .buf _ => true

/-- typeof v === "string". -/
def JVal.isStr : JVal → Bool
  | .str _ => true
  | _ => false

/-- Buffer.isBuffer(v). -/
def JVal.isBuf : JVal → Bool
  | .buf _ => true
  | _ => false

/-- typeof v === "object" (true for objects, arrays, buffers and null). -/
def typeofIsObject : JVal → Bool
  | .null => true
  | .obj _ => true
  | .arr _ => true
  | .buf _ => true
  | _ => false

/-- The string content of a string value (only read under an `isStr` guard). -/
def JVal.asString : JVal → String
  | .str s => s
  | _ => ""

/-- The bytes of a buffer value (only read under an `isBuf` guard). -/
def JVal.asBytes : JVal → List Nat
  | .buf bytes => bytes
  | _ => []

/-! ## Positional number systems

`BigInt.prototype.toString(radix)`, `BigInt(string)`, `Number(string)` and the
hex codec of `Buffer` all build on big-endian digit lists.  `toDigits` is the
minimal big-endian digit expansion (JS renders 0 as "0", hence one digit),
`fixDigits` the fixed-width expansion, `ofDigits` the evaluation map. -/

/-- Fuel-driven worker for `toDigits` (structural, so that the kernel can
evaluate it); the fuel is an upper bound on the number of digits. -/
def toDigitsAux (base : Nat) : Nat → Nat → List Nat
  | 0, _ => []
  | fuel + 1, n => if n < base then [n] else toDigitsAux base fuel (n / base) ++ [n % base]

/-- Minimal big-endian digits of `n` in the given base (`[0]` for zero),
matching `BigInt.prototype.toString(radix)` digit for digit. -/
def toDigits (base n : Nat) : List Nat := toDigitsAux base (n + 1) n

/-- Exactly `width` big-endian digits of `n` (mod `base ^ width`). -/
def fixDigits (base : Nat) : Nat → Nat → List Nat
  | 0, _ => []
  | width + 1, n => fixDigits base width (n / base) ++ [n % base]

/-- Value of a big-endian digit list. -/
def ofDigits (base : Nat) (ds : List Nat) : Nat :=
  List.foldl (fun a d => a * base + d) 0 ds

/-- Digit character for values 0–15, lowercase, as JS `toString(16)` emits. -/
def digitChar (d : Nat) : Char :=
  if d < 10 then Char.ofNat (48 + d) else Char.ofNat (87 + d)

/-- Decimal digit of a character, if any. -/
def decCharVal (c : Char) : Option Nat :=
  if '0' ≤ c ∧ c ≤ '9' then some (c.toNat - 48) else none

/-- Hex digit of a character, if any (both cases accepted, as in JS parsing). -/
def hexCharVal (c : Char) : Option Nat :=
  if '0' ≤ c ∧ c ≤ '9' then some (c.toNat - 48)
  else if 'a' ≤ c ∧ c ≤ 'f' then some (c.toNat - 87)
  else if 'A' ≤ c ∧ c ≤ 'F' then some (c.toNat - 55)
  else none

/-- All characters mapped through a digit reader, failing on the first
non-digit. -/
def charsToDigits (reader : Char → Option Nat) : List Char → Option (List Nat)
  | [] => some []
  | c :: cs =>
      match reader c, charsToDigits reader cs with
      | some d, some ds => some (d :: ds)
      | _, _ => none

/-- `n.toString()` for a natural number. -/
def natToDecString (n : Nat) : String := String.mk ((toDigits 10 n).map digitChar)

/-- `n.toString()` for an integer (BigInt or an integral Number). -/
def intToDecString (n : Int) : String :=
  if n < 0 then "-" ++ natToDecString n.natAbs else natToDecString n.natAbs

/-- `n.toString(16)` for a natural number. -/
def natToHexString (n : Nat) : String := String.mk ((toDigits 16 n).map digitChar)

/-- `n.toString(16)` for a BigInt. -/
def intToHexString (n : Int) : String :=
  if n < 0 then "-" ++ natToHexString n.natAbs else natToHexString n.natAbs

/-- String.prototype.padStart(width, pad). -/
def padStartJS (s : String) (width : Nat) (pad : Char) : String :=
  String.mk (List.replicate (width - s.data.length) pad ++ s.data)

/-- Two hex digits per byte, most significant first: the digit stream behind
`Buffer.prototype.toString("hex")`. -/
def bytesToHexDigits : List Nat → List Nat
  | [] => []
  | b :: rest => b / 16 :: b % 16 :: bytesToHexDigits rest

/-- Buffer.prototype.toString("hex"): lowercase, two digits per byte. -/
def bytesToHexString (bytes : List Nat) : String :=
  String.mk ((bytesToHexDigits bytes).map digitChar)

/-- Digit pairs back to bytes; a trailing lone digit is dropped, as Node's
hex decoder drops an incomplete final byte. -/
def pairsToBytes : List Nat → List Nat
  | d1 :: d2 :: rest => (16 * d1 + d2) :: pairsToBytes rest
  | _ => []

/-- Node `Buffer.from(string, "hex")`: consume hex-digit pairs from the
front and stop at the first character pair that is not two hex digits,
returning the bytes decoded so far. -/
def hexCharsToBytes : List Char → List Nat
  | c1 :: c2 :: rest =>
      (match hexCharVal c1, hexCharVal c2 with
       | some d1, some d2 => (16 * d1 + d2) :: hexCharsToBytes rest
       | _, _ => [])
  | _ => []

/-- Buffer.from(s, "hex"). -/
def hexStringToBytes (s : String) : List Nat := hexCharsToBytes s.data

/-- The SyntaxError thrown by `BigInt("…")` on a malformed numeric string. -/
def bigIntSyntaxError (s : String) : JsError :=
  ⟨"SyntaxError", "Cannot convert " ++ s ++ " to a BigInt"⟩

/-- BigInt(string).  Modelled for the string shapes this library feeds it:
"0x"-prefixed hex strings (from `toBigInt`) and decimal strings, with the
empty string evaluating to 0 as in JS; anything else is a SyntaxError.
(Whitespace trimming, "0b"/"0o" prefixes and "0X" are not exercised by the
sources and are not modelled.) -/
def jsBigIntOfString (s : String) : Except JsError Int :=
  let cs := s.data
  if cs = [] then .ok 0
  else if cs.take 2 = ['0', 'x'] then
    match charsToDigits hexCharVal (cs.drop 2) with
    | some ds => if ds = [] then .error (bigIntSyntaxError s) else .ok (ofDigits 16 ds : Nat)
    | none => .error (bigIntSyntaxError s)
  else if cs.head? = some '-' then
    match charsToDigits decCharVal cs.tail with
    | some ds => if ds = [] then .error (bigIntSyntaxError s) else .ok (-(ofDigits 10 ds : Nat))
    | none => .error (bigIntSyntaxError s)
  else
    match charsToDigits decCharVal cs with
    | some ds => .ok (ofDigits 10 ds : Nat)
    | none => .error (bigIntSyntaxError s)

/-- Number(string), modelled for the decimal-integer strings this library
produces for recovery ids; the empty string is 0 as in JS, and strings the
model does not cover read as NaN, i.e. `none`. -/
def jsNumberOfString (s : String) : Option Int :=
  let cs := s.data
  if cs = [] then some 0
  else if cs.head? = some '-' then
    match charsToDigits decCharVal cs.tail with
    | some ds => if ds = [] then none else some (-(ofDigits 10 ds : Nat))
    | none => none
  else
    match charsToDigits decCharVal cs with
    | some ds => some (ofDigits 10 ds : Nat)
    | none => none

/-- Rendering of a recovery id (a JS number or NaN) by `toString()`. -/
def recIdToString : Option Int → String
  | some n => intToDecString n
  | none => "NaN"

/-! ## UTF-8 and JSON

`Buffer.from(string)` encodes UTF-8; `JSON.stringify` serializes in property
insertion order, omitting undefined-valued object properties and rendering
undefined array elements as null (Buffers carry a `toJSON` that serializes
them as an object, included for completeness). -/

/-- UTF-8 bytes of one character (standard encoding of its scalar value). -/
def utf8Char (c : Char) : List Nat :=
  let n := c.toNat
  if n < 128 then [n]
  else if n < 2048 then [192 + n / 64, 128 + n % 64]
  else if n < 65536 then [224 + n / 4096, 128 + n / 64 % 64, 128 + n % 64]
  else [240 + n / 262144, 128 + n / 4096 % 64, 128 + n / 64 % 64, 128 + n % 64]

def utf8OfChars : List Char → List Nat
  | [] => []
  | c :: cs => utf8Char c ++ utf8OfChars cs

/-- Buffer.from(s): the UTF-8 bytes of a string. -/
def utf8Bytes (s : String) : List Nat := utf8OfChars s.data

/-- JSON escape of one character inside a string literal. -/
def jsonEscapeChar (c : Char) : String :=
  if c = '"' then "\\\""
  else if c = '\\' then "\\\\"
  else if c = Char.ofNat 8 then "\\b"
  else if c = Char.ofNat 12 then "\\f"
  else if c = '\n' then "\\n"
  else if c = '\r' then "\\r"
  else if c = '\t' then "\\t"
  else if c.toNat < 32 then "\\u00" ++ String.mk ((fixDigits 16 2 c.toNat).map digitChar)
  else String.singleton c

/-- A JSON string literal for `s`. -/
def jsonQuote (s : String) : String :=
  "\"" ++ String.join (s.data.map jsonEscapeChar) ++ "\""

/-- Comma-separated decimal rendering of the byte list of a Buffer. -/
def jsonBytes : List Nat → String
  | [] => ""
  | b :: rest =>
      natToDecString b ++ (match rest with | [] => "" | _ => "," ++ jsonBytes rest)

mutual

/-- JSON.stringify of one value; `none` is the undefined result (for the
undefined value itself; functions and symbols do not occur here). -/
def jsonValue : JVal → Option String
  | .undefined => none
  | .null => some "null"
  | .bool b => some (if b then "true" else "false")
  | .num n => some (intToDecString n)
  | .str s => some (jsonQuote s)
  | .arr xs => some ("[" ++ jsonArray xs ++ "]")
  | .obj fs => some ("\x7b" ++ jsonObject fs ++ "\x7d")
  | .buf bs => some ("\x7b\"type\":\"Buffer\",\"data\":[" ++ jsonBytes bs ++ "]\x7d")

/-- Array elements, commas between them, undefined rendered as null. -/
def jsonArray : JArr → String
  | .nil => ""
  | .cons v rest =>
      ((jsonValue v).getD "null") ++
        (match rest with | .nil => "" | _ => "," ++ jsonArray rest)

/-- Object properties in insertion order; undefined-valued ones are omitted. -/
def jsonObject : JObj → String
  | .nil => ""
  | .cons k v rest =>
      match jsonValue v with
      | none => jsonObject rest
      | some sv =>
          let tail := jsonObject rest
          jsonQuote k ++ ":" ++ sv ++ (if tail = "" then "" else "," ++ tail)

end

/-- JSON.stringify where the caller treats the result as a string (every such
call site in the sources passes an object, for which stringify is total). -/
def jsonStr (v : JVal) : String := (jsonValue v).getD "undefined"

/-- Interpolation of a value into a template literal.  Modelled for the value
shapes that actually reach a template in these sources: strings, integral
numbers, null, undefined and booleans (arrays and objects never do). -/
def jsTemplateStr : JVal → String
  | .str s => s
  | .num n => intToDecString n
  | .null => "null"
  | .undefined => "undefined"
  | .bool b => if b then "true" else "false"
  | .arr _ => ""
  | .obj _ => "[object Object]"
  | .buf _ => ""

/-- String.prototype.toLowerCase, for the ASCII tickers this library handles
(`Char.toLower` lowers exactly the ASCII uppercase letters). -/
def jsToLowerCase (s : String) : String := String.mk (s.data.map Char.toLower)

/-! ## src/core/buffer.ts -/

/-- toBigInt: `BigInt("0x" + buffer.toString("hex"))` (throws only when the
buffer is empty, since `BigInt("0x")` is a SyntaxError). -/
def toBigInt (buffer : List Nat) : Except JsError Int :=
  jsBigIntOfString ("0x" ++ bytesToHexString buffer)

/-- toBigIntStr: `toBigInt(buffer).toString()`. -/
def toBigIntStr (buffer : List Nat) : Except JsError String :=
  (toBigInt buffer).map intToDecString

/-- fromBigInt: `Buffer.from(input.toString(16).padStart(length, "0"), "hex")`.
`length` counts hex digits (default 64, i.e. 32 bytes); there is no size
check of any kind. -/
def fromBigInt (input : Int) (length : Nat := 64) : List Nat :=
  hexStringToBytes (padStartJS (intToHexString input) length '0')

/-- fromBigIntStr: `fromBigInt(BigInt(input), length)`. -/
def fromBigIntStr (input : String) (length : Nat := 64) : Except JsError (List Nat) :=
  (jsBigIntOfString input).map (fun n => fromBigInt n length)

/-! ## External collaborators

tiny-secp256k1 and the SHA-256 primitive are out of scope (spec section 1):
they are black boxes behind the interface below.  Any of the curve calls may
throw (`Except.error`), since the JS library validates its arguments;
recovery ids are JS numbers, with `none` standing for NaN. -/

/-- The slice of the tiny-secp256k1 interface these sources call. -/
structure Ecc where
  signRecoverable : List Nat → List Nat → Except JsError (List Nat × Option Int)
  verify : List Nat → List Nat → List Nat → Except JsError Bool
  recover : List Nat → List Nat → Option Int → Bool → Except JsError (Option (List Nat))

/-- The external collaborators of the signing core. -/
structure Env where
  ecc : Ecc
  sha256 : List Nat → List Nat

/-! ## src/utils.ts (cited by the claims as src/src/core/index.ts) -/

/-- The portable signature structure: `{ v, r, s }`, three strings, in this
insertion order (as `splitSignature` constructs it). -/
structure Signature where
  v : String
  r : String
  s : String
deriving DecidableEq, Repr

/-- The signature object as a JS value (what gets assigned into a draft). -/
def Signature.toJVal (sig : Signature) : JVal :=
  mkObj [("v", .str sig.v), ("r", .str sig.r), ("s", .str sig.s)]

/-- KeypairBuffer: the two key buffers. -/
structure Keypair where
  privKeyBuffer : List Nat
  pubKeyBuffer : List Nat
deriving DecidableEq, Repr

/-- The `test` sub-object of a verification result. -/
structure VTest where
  valid : Bool
  pub : String
  pubRecovered : String
deriving DecidableEq, Repr

/-- VerificationResult: `{ test: { valid, pub, pubRecovered }, result }`. -/
structure VerificationResult where
  test : VTest
  result : String
deriving DecidableEq, Repr

/-- sha256(input) for a string input: SHA-256 of its UTF-8 bytes
(`bcSha256(Buffer.from(input))`). -/
def sha256Str (E : Env) (input : String) : List Nat := E.sha256 (utf8Bytes input)

/-- splitSignature: split a 64-byte recoverable signature into `{ v, r, s }`.
`r` is bytes 0–31, `s` bytes 32–63; in the default "number" format both are
rendered as decimal big-integer strings, in "hex" format as hex strings; `v`
is the recovery id rendered by `toString()`.  The input is a typed
`RecoverableSignature`, so the `instanceof Uint8Array` guard always passes;
a length other than 64 throws. -/
def splitSignature (sig : List Nat × Option Int) (outputFormat : String := "number") :
    Except JsError Signature :=
  let signature := sig.1
  if signature.length ≠ 64 then .error ⟨"Error", "Invalid signature length"⟩
  else
    let r := signature.take 32
    let s := signature.drop 32
    match outputFormat with
    | "hex" => .ok ⟨recIdToString sig.2, bytesToHexString r, bytesToHexString s⟩
    | _ =>
        match toBigIntStr r with
        | .error e => .error e
        | .ok rStr =>
            match toBigIntStr s with
            | .error e => .error e
            | .ok sStr => .ok ⟨recIdToString sig.2, rStr, sStr⟩

/-- joinSignature: dynamic checks (`typeof sig === "object"` and non-null,
then `r`, `s`, `v` all strings), then decode `r` and `s` through
`fromBigIntStr` (default width 64 hex digits = 32 bytes each), concatenate,
and parse `v` with `Number()`. -/
def joinSignature (sig : JVal) : Except JsError (List Nat × Option Int) :=
  if ¬ (typeofIsObject sig = true) ∨ sig = .null then
    .error ⟨"Error", "Invalid signature type"⟩
  else if ¬ ((getField sig "r").isStr = true ∧ (getField sig "s").isStr = true ∧
             (getField sig "v").isStr = true) then
    .error ⟨"Error", "Invalid signature format"⟩
  else
    match fromBigIntStr (getField sig "r").asString with
    | .error e => .error e
    | .ok r =>
        match fromBigIntStr (getField sig "s").asString with
        | .error e => .error e
        | .ok s => .ok (r ++ s, jsNumberOfString (getField sig "v").asString)

/-- The body of `sign` inside its try block: hash `message + salt`, call the
curve signer, split the recoverable signature. -/
def signBody (E : Env) (message salt : String) (privKeyBuffer : List Nat) :
    Except JsError (Signature × List Nat) :=
  let msgHash := sha256Str E (message ++ salt)
  match E.ecc.signRecoverable msgHash privKeyBuffer with
  | .error e => .error e
  | .ok recoverableSig =>
      match splitSignature recoverableSig with
      | .error e => .error e
      | .ok signature => .ok (signature, msgHash)

/-- sign(message, privKeyBuffer, salt): first the dynamic input check —
message and salt must be strings and privKeyBuffer a Buffer (its length is
NOT checked) — then the try block, whose failures are re-thrown as
"Failed to sign the message: …" wrapping the rendered cause. -/
def sign (E : Env) (message privKeyBuffer salt : JVal) :
    Except JsError (Signature × List Nat) :=
  if ¬ (message.isStr = true) ∨ ¬ (privKeyBuffer.isBuf = true) ∨ ¬ (salt.isStr = true) then
    .error ⟨"Error", "Invalid input types"⟩
  else
    match signBody E message.asString salt.asString privKeyBuffer.asBytes with
    | .ok r => .ok r
    | .error e => .error ⟨"Error", "Failed to sign the message: " ++ e.render⟩

/-- verify(hash, pubKeyBuffer, signature, protocol): join the signature, ask
the curve library for the verdict, recover the signer key (an unrecoverable
point degrades to a 33-byte zero buffer, not an error), and return the
verdict together with the JSON of the protocol object.  There is no
try/catch here: whatever `joinSignature` or the curve library throws
escapes unwrapped. -/
def verify (E : Env) (hash pubKeyBuffer : List Nat) (signature protocol : JVal) :
    Except JsError VerificationResult :=
  match joinSignature signature with
  | .error e => .error e
  | .ok sig =>
      match E.ecc.verify hash pubKeyBuffer sig.1 with
      | .error e => .error e
      | .ok isValid =>
          match E.ecc.recover hash sig.1 sig.2 true with
          | .error e => .error e
          | .ok recovered =>
              .ok ⟨⟨isValid, bytesToHexString pubKeyBuffer,
                    bytesToHexString (recovered.getD (List.replicate 33 0))⟩,
                   jsonStr protocol⟩

/-- Truthiness of the `messageKey` argument (a string or null; null,
undefined and the empty string are falsy). -/
def messageKeyTruthy : Option String → Bool
  | some k => if k = "" then false else true
  | none => false

/-- The salt `signAndVerify` reads from a draft:
`protocol.prv ? protocol.prv.salt : protocol.salt`. -/
def draftSalt (protocol : JVal) : JVal :=
  if truthy (getField protocol "prv")
  then getField (getField protocol "prv") "salt"
  else getField protocol "salt"

/-- The two mutation lines of `signAndVerify`:
`protocol.prv ? (protocol.prv.sig = signature) : (protocol.sig = signature)`
and the analogous write of the hex hash (the `protocol.prv` test is
re-evaluated for the second write, exactly as in the source). -/
def writeSigHash (protocol : JVal) (signature : Signature) (msgHash : List Nat) : JVal :=
  let protocol1 :=
    if truthy (getField protocol "prv")
    then setField protocol "prv" (setField (getField protocol "prv") "sig" signature.toJVal)
    else setField protocol "sig" signature.toJVal
  if truthy (getField protocol1 "prv")
  then setField protocol1 "prv"
        (setField (getField protocol1 "prv") "hash" (.str (bytesToHexString msgHash)))
  else setField protocol1 "hash" (.str (bytesToHexString msgHash))

/-- The text the self-check re-hashes: `JSON.stringify(protocol[messageKey])`
when `messageKey` is truthy (undefined stringifies to the undefined value,
which a template then renders "undefined"), else the base message. -/
def testMessageOf (protocol2 : JVal) (baseMessage : String)
    (messageKey : Option String) : String :=
  if messageKeyTruthy messageKey
  then (jsonValue (getField protocol2 (messageKey.getD ""))).getD "undefined"
  else baseMessage

/-- The signature the self-check reads back from the mutated draft. -/
def testSigOf (protocol2 : JVal) : JVal :=
  if truthy (getField protocol2 "prv")
  then getField (getField protocol2 "prv") "sig"
  else getField protocol2 "sig"

/-- signAndVerify, with the mutated draft returned alongside the result (the
source mutates `protocol` in place; this is the same state passed
explicitly).  Steps, exactly as in the source: read the salt from
`protocol.prv.salt` when `protocol.prv` is truthy, else from `protocol.salt`;
sign; write the signature and the hex hash into the same location; recompute
the test message; re-hash it with the same salt; and verify with the freshly
written signature.  The verification outcome is returned as-is — nothing
raises on `valid == false`. -/
def signAndVerifyD (E : Env) (protocol : JVal) (keypair : Keypair)
    (baseMessage : String) (messageKey : Option String := none) :
    Except JsError (VerificationResult × JVal) :=
  let salt := draftSalt protocol
  match sign E (.str baseMessage) (.buf keypair.privKeyBuffer) salt with
  | .error e => .error e
  | .ok signed =>
      let protocol2 := writeSigHash protocol signed.1 signed.2
      let testMessage := testMessageOf protocol2 baseMessage messageKey
      let testMsgHash := sha256Str E (testMessage ++ jsTemplateStr salt)
      match verify E testMsgHash keypair.pubKeyBuffer (testSigOf protocol2) protocol2 with
      | .error e => .error e
      | .ok result => .ok (result, protocol2)

/-- signAndVerify as the caller sees it: just the VerificationResult. -/
def signAndVerify (E : Env) (protocol : JVal) (keypair : Keypair)
    (baseMessage : String) (messageKey : Option String := none) :
    Except JsError VerificationResult :=
  (signAndVerifyD E protocol keypair baseMessage messageKey).map (·.1)

/-- getKeypairBuff: accept each key as a Buffer or a hex string, then check
the decoded lengths (32 for the private key, 33 for the public key). -/
def keyToBuffer (key : JVal) : Except JsError (List Nat) :=
  match key with
  | .buf bs => .ok bs
  | .str s => .ok (hexStringToBytes s)
  | _ => .error ⟨"TypeError", "Invalid key argument"⟩

def getKeypairBuff (privKey pubKey : JVal) : Except JsError Keypair :=
  match keyToBuffer privKey with
  | .error e => .error e
  | .ok privKeyBuffer =>
      match keyToBuffer pubKey with
      | .error e => .error e
      | .ok pubKeyBuffer =>
          if privKeyBuffer.length ≠ 32 ∨ pubKeyBuffer.length ≠ 33 then
            .error ⟨"Error", "Invalid key length"⟩
          else
            .ok ⟨privKeyBuffer, pubKeyBuffer⟩

/-! ## src/index.ts — protocol assemblers

The `salt` parameter of each assembler is `number | string` in the source and
is stringified as `"" + salt` when the draft is built; the model takes the
already-stringified salt.  `amount` / `sequence` are JS numbers interpolated
into templates; the model covers the integral values the protocol uses. -/

/-- The TapMintProtocol draft exactly as `signMint` constructs it (field
order included): `tick` lower-cased, signature slots null, `prv` nested. -/
def mintProtocol (ticker : String) (amount : Int) (address salt : String) : JVal :=
  mkObj [("p", .str "tap"), ("op", .str "token-mint"),
         ("tick", .str (jsToLowerCase ticker)), ("amt", .num amount),
         ("prv", mkObj [("sig", .null), ("hash", .null),
                        ("address", .str address), ("salt", .str salt)])]

/-- The `signMint` base message, reading the draft fields through the same
template literal as the source:
`\x60${protocol.p}-${protocol.op}-${protocol.tick}-${protocol.amt}-${protocol.prv.address}-\x60`. -/
def mintBaseMessage (ticker : String) (amount : Int) (address salt : String) : String :=
  let protocol := mintProtocol ticker amount address salt
  jsTemplateStr (getField protocol "p") ++ "-" ++
  jsTemplateStr (getField protocol "op") ++ "-" ++
  jsTemplateStr (getField protocol "tick") ++ "-" ++
  jsTemplateStr (getField protocol "amt") ++ "-" ++
  jsTemplateStr (getField (getField protocol "prv") "address") ++ "-"

/-- signMint with the mutated draft exposed. -/
def signMintD (E : Env) (privKey pubKey : JVal) (ticker : String) (amount : Int)
    (address salt : String) : Except JsError (VerificationResult × JVal) :=
  match getKeypairBuff privKey pubKey with
  | .error e => .error e
  | .ok keypair =>
      signAndVerifyD E (mintProtocol ticker amount address salt) keypair
        (mintBaseMessage ticker amount address salt)

/-- signMint(privKey, pubKey, ticker, amount, address, salt). -/
def signMint (E : Env) (privKey pubKey : JVal) (ticker : String) (amount : Int)
    (address salt : String) : Except JsError VerificationResult :=
  (signMintD E privKey pubKey ticker amount address salt).map (·.1)

/-- The VerificationProtocol draft exactly as `signVerification` constructs
it.  Note that `prv` holds the privilege authority id, a STRING. -/
def verificationProtocol (privilegeAuthorityId sha256Hash collection : String)
    (sequence : Int) (address salt : String) : JVal :=
  mkObj [("p", .str "tap"), ("op", .str "privilege-auth"),
         ("sig", .null), ("hash", .null),
         ("address", .str address), ("salt", .str salt),
         ("prv", .str privilegeAuthorityId), ("verify", .str sha256Hash),
         ("col", .str collection), ("seq", .num sequence)]

/-- The `signVerification` base message:
`\x60${protocol.prv}-${protocol.col}-${protocol.verify}-${protocol.seq}-${protocol.address}-\x60`. -/
def verificationBaseMessage (privilegeAuthorityId sha256Hash collection : String)
    (sequence : Int) (address salt : String) : String :=
  let protocol := verificationProtocol privilegeAuthorityId sha256Hash collection
    sequence address salt
  jsTemplateStr (getField protocol "prv") ++ "-" ++
  jsTemplateStr (getField protocol "col") ++ "-" ++
  jsTemplateStr (getField protocol "verify") ++ "-" ++
  jsTemplateStr (getField protocol "seq") ++ "-" ++
  jsTemplateStr (getField protocol "address") ++ "-"

/-- signVerification(privKey, pubKey, privilege_authority_id, sha256_hash,
collection, sequence, address, salt). -/
def signVerification (E : Env) (privKey pubKey : JVal)
    (privilegeAuthorityId sha256Hash collection : String) (sequence : Int)
    (address salt : String) : Except JsError VerificationResult :=
  match getKeypairBuff privKey pubKey with
  | .error e => .error e
  | .ok keypair =>
      signAndVerify E
        (verificationProtocol privilegeAuthorityId sha256Hash collection sequence address salt)
        keypair
        (verificationBaseMessage privilegeAuthorityId sha256Hash collection
          sequence address salt)

/-! ## Digit arithmetic groundwork -/

theorem foldl_mul_add (b : Nat) (ds : List Nat) : ∀ a : Nat,
    List.foldl (fun x d => x * b + d) a ds = a * b ^ ds.length + ofDigits b ds := by
  induction ds with
  | nil => intro a; simp [ofDigits]
  | cons d t ih =>
      intro a
      show List.foldl (fun x d => x * b + d) (a * b + d) t = _
      rw [ih (a * b + d)]
      have hcons : ofDigits b (d :: t) = d * b ^ t.length + ofDigits b t := by
        show List.foldl (fun x d => x * b + d) (0 * b + d) t = _
        rw [ih (0 * b + d)]
        ring
      rw [hcons, List.length_cons]
      ring

theorem ofDigits_cons (b d : Nat) (ds : List Nat) :
    ofDigits b (d :: ds) = d * b ^ ds.length + ofDigits b ds := by
  show List.foldl (fun x d => x * b + d) (0 * b + d) ds = _
  rw [foldl_mul_add]
  ring

theorem ofDigits_append_singleton (b d : Nat) (ds : List Nat) :
    ofDigits b (ds ++ [d]) = ofDigits b ds * b + d := by
  unfold ofDigits
  rw [List.foldl_append]
  rfl

theorem ofDigits_lt (b : Nat) (ds : List Nat) (h : ∀ d ∈ ds, d < b) :
    ofDigits b ds < b ^ ds.length := by
  induction ds with
  | nil => simp [ofDigits]
  | cons d t ih =>
      have hd : d + 1 ≤ b := h d (List.mem_cons_self d t)
      have ht : ofDigits b t < b ^ t.length := ih (fun x hx => h x (List.mem_cons_of_mem d hx))
      rw [ofDigits_cons, List.length_cons]
      calc d * b ^ t.length + ofDigits b t
          < d * b ^ t.length + b ^ t.length := by omega
        _ = (d + 1) * b ^ t.length := by ring
        _ ≤ b * b ^ t.length := Nat.mul_le_mul_right _ hd
        _ = b ^ (t.length + 1) := by ring

theorem ofDigits_replicate_zero (b m : Nat) (ds : List Nat) :
    ofDigits b (List.replicate m 0 ++ ds) = ofDigits b ds := by
  unfold ofDigits
  rw [List.foldl_append]
  have hz : List.foldl (fun x d => x * b + d) 0 (List.replicate m 0) = 0 := by
    induction m with
    | zero => rfl
    | succ m ih =>
        rw [List.replicate_succ, List.foldl_cons]
        simpa using ih
  rw [hz]

theorem toDigitsAux_congr (b : Nat) (hb : 2 ≤ b) : ∀ fuel₁ fuel₂ n, n < fuel₁ → n < fuel₂ →
    toDigitsAux b fuel₁ n = toDigitsAux b fuel₂ n := by
  intro fuel₁
  induction fuel₁ with
  | zero => intro _ n h; omega
  | succ f ih =>
      intro g n hf hg
      cases g with
      | zero => omega
      | succ g =>
          show (if n < b then [n] else toDigitsAux b f (n / b) ++ [n % b]) =
            (if n < b then [n] else toDigitsAux b g (n / b) ++ [n % b])
          by_cases hn : n < b
          · simp [hn]
          · have hdiv : n / b < n := Nat.div_lt_self (by omega) hb
            simp only [if_neg hn]
            rw [ih g (n / b) (by omega) (by omega)]

theorem toDigits_of_lt (b n : Nat) (h : n < b) : toDigits b n = [n] := by
  simp [toDigits, toDigitsAux, h]

theorem toDigits_of_ge (b n : Nat) (hb : 2 ≤ b) (h : b ≤ n) :
    toDigits b n = toDigits b (n / b) ++ [n % b] := by
  have hdiv : n / b < n := Nat.div_lt_self (by omega) hb
  show toDigitsAux b (n + 1) n = toDigitsAux b (n / b + 1) (n / b) ++ [n % b]
  have : toDigitsAux b (n + 1) n = toDigitsAux b n (n / b) ++ [n % b] := by
    show (if n < b then [n] else toDigitsAux b n (n / b) ++ [n % b]) = _
    simp [Nat.not_lt.2 h]
  rw [this, toDigitsAux_congr b hb n (n / b + 1) (n / b) (by omega) (by omega)]

theorem ofDigits_toDigits (b : Nat) (hb : 2 ≤ b) : ∀ n, ofDigits b (toDigits b n) = n := by
  intro n
  induction n using Nat.strong_induction_on with
  | _ n ih =>
      by_cases h : n < b
      · rw [toDigits_of_lt b n h]
        show 0 * b + n = n
        ring
      · rw [toDigits_of_ge b n hb (Nat.le_of_not_lt h), ofDigits_append_singleton,
            ih (n / b) (Nat.div_lt_self (by omega) hb)]
        calc n / b * b + n % b = b * (n / b) + n % b := by ring
          _ = n := Nat.div_add_mod n b

theorem toDigits_mem_lt (b : Nat) (hb : 2 ≤ b) : ∀ n d, d ∈ toDigits b n → d < b := by
  intro n
  induction n using Nat.strong_induction_on with
  | _ n ih =>
      intro d hd
      by_cases h : n < b
      · rw [toDigits_of_lt b n h] at hd
        simpa using List.mem_singleton.1 hd ▸ h
      · rw [toDigits_of_ge b n hb (Nat.le_of_not_lt h)] at hd
        rcases List.mem_append.1 hd with h1 | h2
        · exact ih (n / b) (Nat.div_lt_self (by omega) hb) d h1
        · have : d = n % b := List.mem_singleton.1 h2
          subst this
          exact Nat.mod_lt _ (by omega)

theorem toDigits_ne_nil (b n : Nat) (hb : 2 ≤ b) : toDigits b n ≠ [] := by
  by_cases h : n < b
  · rw [toDigits_of_lt b n h]; simp
  · rw [toDigits_of_ge b n hb (Nat.le_of_not_lt h)]; simp

theorem length_toDigits_le (b : Nat) (hb : 2 ≤ b) : ∀ n k, 1 ≤ k → n < b ^ k →
    (toDigits b n).length ≤ k := by
  intro n
  induction n using Nat.strong_induction_on with
  | _ n ih =>
      intro k hk hn
      by_cases h : n < b
      · rw [toDigits_of_lt b n h]
        simpa using hk
      · have hge := Nat.le_of_not_lt h
        have hk2 : 2 ≤ k := by
          by_contra hlt
          have hk1 : k = 1 := by omega
          subst hk1
          simp only [pow_one] at hn
          omega
        rw [toDigits_of_ge b n hb hge, List.length_append, List.length_singleton]
        have hdivlt : n / b < b ^ (k - 1) := by
          rw [Nat.div_lt_iff_lt_mul (by omega : 0 < b)]
          calc n < b ^ k := hn
            _ = b ^ (k - 1) * b := by
                rw [← pow_succ]
                congr 1
                omega
        have := ih (n / b) (Nat.div_lt_self (by omega) hb) (k - 1) (by omega) hdivlt
        omega

theorem length_toDigits_ge (b : Nat) (hb : 2 ≤ b) : ∀ n k, b ^ k ≤ n →
    k + 1 ≤ (toDigits b n).length := by
  intro n
  induction n using Nat.strong_induction_on with
  | _ n ih =>
      intro k hk
      cases k with
      | zero =>
          have := toDigits_ne_nil b n hb
          have := List.length_pos.2 this
          omega
      | succ k =>
          have hbn : b ≤ n := by
            calc b = b ^ 1 := (pow_one b).symm
              _ ≤ b ^ (k + 1) := Nat.pow_le_pow_right (by omega) (by omega)
              _ ≤ n := hk
          rw [toDigits_of_ge b n hb hbn, List.length_append, List.length_singleton]
          have hdiv : b ^ k ≤ n / b := by
            rw [Nat.le_div_iff_mul_le (by omega : 0 < b)]
            calc b ^ k * b = b ^ (k + 1) := (pow_succ b k).symm
              _ ≤ n := hk
          have := ih (n / b) (Nat.div_lt_self (by omega) hb) k hdiv
          omega

theorem fixDigits_length (b : Nat) : ∀ k n, (fixDigits b k n).length = k := by
  intro k
  induction k with
  | zero => intro n; rfl
  | succ k ih => intro n; simp [fixDigits, ih]

theorem fixDigits_mem_lt (b : Nat) (hb : 0 < b) : ∀ k n d, d ∈ fixDigits b k n → d < b := by
  intro k
  induction k with
  | zero => intro n d hd; simp [fixDigits] at hd
  | succ k ih =>
      intro n d hd
      rcases List.mem_append.1 hd with h1 | h2
      · exact ih (n / b) d h1
      · have : d = n % b := List.mem_singleton.1 h2
        subst this
        exact Nat.mod_lt _ hb

theorem ofDigits_fixDigits (b : Nat) (hb : 0 < b) : ∀ k n, n < b ^ k →
    ofDigits b (fixDigits b k n) = n := by
  intro k
  induction k with
  | zero =>
      intro n hn
      simp only [pow_zero, Nat.lt_one_iff] at hn
      subst hn
      rfl
  | succ k ih =>
      intro n hn
      show ofDigits b (fixDigits b k (n / b) ++ [n % b]) = n
      rw [ofDigits_append_singleton, ih (n / b) (by
        rw [Nat.div_lt_iff_lt_mul hb]
        calc n < b ^ (k + 1) := hn
          _ = b ^ k * b := pow_succ b k)]
      calc n / b * b + n % b = b * (n / b) + n % b := by ring
        _ = n := Nat.div_add_mod n b

theorem ofDigits_inj (b : Nat) (hb : 0 < b) : ∀ ds es : List Nat, ds.length = es.length →
    (∀ d ∈ ds, d < b) → (∀ e ∈ es, e < b) → ofDigits b ds = ofDigits b es → ds = es := by
  intro ds
  induction ds with
  | nil =>
      intro es hlen _ _ _
      cases es with
      | nil => rfl
      | cons e u => simp at hlen
  | cons d t ih =>
      intro es hlen hd he hval
      cases es with
      | nil => simp at hlen
      | cons e u =>
          have hlen' : t.length = u.length := by simpa using hlen
          rw [ofDigits_cons, ofDigits_cons, hlen'] at hval
          have hx : 0 < b ^ u.length := Nat.pos_pow_of_pos _ hb
          have h1 : ofDigits b t < b ^ u.length := by
            rw [← hlen']
            exact ofDigits_lt b t (fun x hx => hd x (List.mem_cons_of_mem d hx))
          have h2 : ofDigits b u < b ^ u.length :=
            ofDigits_lt b u (fun x hx => he x (List.mem_cons_of_mem e hx))
          have hde : d = e := by
            have e1 : (d * b ^ u.length + ofDigits b t) / b ^ u.length = d := by
              rw [Nat.mul_comm d, Nat.mul_add_div hx, Nat.div_eq_of_lt h1]
              omega
            have e2 : (e * b ^ u.length + ofDigits b u) / b ^ u.length = e := by
              rw [Nat.mul_comm e, Nat.mul_add_div hx, Nat.div_eq_of_lt h2]
              omega
            rw [← e1, ← e2, hval]
          subst hde
          have htu : ofDigits b t = ofDigits b u := by omega
          rw [ih u hlen' (fun x hx => hd x (List.mem_cons_of_mem d hx))
            (fun x hx => he x (List.mem_cons_of_mem d hx)) htu]

theorem pairsToBytes_append_pair (a c : Nat) :
    ∀ ds : List Nat, ds.length % 2 = 0 →
      pairsToBytes (ds ++ [a, c]) = pairsToBytes ds ++ [16 * a + c]
  | [] => fun _ => rfl
  | [_] => fun h => by simp at h
  | d1 :: d2 :: t => fun h => by
      have ht : t.length % 2 = 0 := by
        simp only [List.length_cons] at h
        omega
      show (16 * d1 + d2) :: pairsToBytes (t ++ [a, c]) = _
      rw [pairsToBytes_append_pair a c t ht]
      rfl

theorem pairsToBytes_length : ∀ ds : List Nat, (pairsToBytes ds).length = ds.length / 2
  | [] => rfl
  | [d] => by
      have h : pairsToBytes [d] = [] := rfl
      rw [h]
      norm_num
  | d1 :: d2 :: t => by
      show (pairsToBytes t).length + 1 = _
      rw [pairsToBytes_length t]
      simp only [List.length_cons]
      omega

theorem hexCharVal_digitChar (d : Nat) (h : d < 16) : hexCharVal (digitChar d) = some d := by
  interval_cases d <;> decide

theorem decCharVal_digitChar (d : Nat) (h : d < 10) : decCharVal (digitChar d) = some d := by
  interval_cases d <;> decide

theorem digitChar_ne_x (d : Nat) (h : d < 10) : digitChar d ≠ 'x' := by
  interval_cases d <;> decide

theorem digitChar_ne_dash (d : Nat) (h : d < 10) : digitChar d ≠ '-' := by
  interval_cases d <;> decide

theorem charsToDigits_dec_map : ∀ ds : List Nat, (∀ d ∈ ds, d < 10) →
    charsToDigits decCharVal (ds.map digitChar) = some ds := by
  intro ds
  induction ds with
  | nil => intro _; rfl
  | cons d t ih =>
      intro h
      have h1 : decCharVal (digitChar d) = some d :=
        decCharVal_digitChar d (h d (List.mem_cons_self d t))
      have h2 := ih (fun x hx => h x (List.mem_cons_of_mem d hx))
      simp [charsToDigits, h1, h2]

theorem charsToDigits_hex_map : ∀ ds : List Nat, (∀ d ∈ ds, d < 16) →
    charsToDigits hexCharVal (ds.map digitChar) = some ds := by
  intro ds
  induction ds with
  | nil => intro _; rfl
  | cons d t ih =>
      intro h
      have h1 : hexCharVal (digitChar d) = some d :=
        hexCharVal_digitChar d (h d (List.mem_cons_self d t))
      have h2 := ih (fun x hx => h x (List.mem_cons_of_mem d hx))
      simp [charsToDigits, h1, h2]

theorem hexCharsToBytes_map : ∀ ds : List Nat, (∀ d ∈ ds, d < 16) →
    hexCharsToBytes (ds.map digitChar) = pairsToBytes ds
  | [] => fun _ => rfl
  | [_] => fun _ => rfl
  | d1 :: d2 :: t => fun h => by
      have h1 : hexCharVal (digitChar d1) = some d1 :=
        hexCharVal_digitChar _ (h _ (by simp))
      have h2 : hexCharVal (digitChar d2) = some d2 :=
        hexCharVal_digitChar _ (h _ (by simp))
      have ih := hexCharsToBytes_map t (fun x hx => h x (by simp [hx]))
      simp [hexCharsToBytes, pairsToBytes, h1, h2, ih]

theorem pairsToBytes_fixDigits : ∀ k n : Nat,
    pairsToBytes (fixDigits 16 (2 * k) n) = fixDigits 256 k n := by
  intro k
  induction k with
  | zero => intro n; rfl
  | succ k ih =>
      intro n
      have h2 : 2 * (k + 1) = 2 * k + 1 + 1 := by ring
      rw [h2]
      show pairsToBytes ((fixDigits 16 (2 * k) (n / 16 / 16) ++ [n / 16 % 16]) ++ [n % 16]) = _
      rw [List.append_assoc]
      have heven : (fixDigits 16 (2 * k) (n / 16 / 16)).length % 2 = 0 := by
        rw [fixDigits_length]
        omega
      have hlist : ([n / 16 % 16] ++ [n % 16] : List Nat) = [n / 16 % 16, n % 16] := rfl
      rw [hlist, pairsToBytes_append_pair _ _ _ heven, ih (n / 16 / 16)]
      have hdd : n / 16 / 16 = n / 256 := by
        rw [Nat.div_div_eq_div_mul]
      have hmod : 16 * (n / 16 % 16) + n % 16 = n % 256 := by omega
      rw [hdd, hmod]
      rfl

theorem fixDigits_ofDigits_bytes (b : Nat) (hb : 0 < b) (ds : List Nat)
    (h : ∀ d ∈ ds, d < b) : fixDigits b ds.length (ofDigits b ds) = ds := by
  apply ofDigits_inj b hb
  · rw [fixDigits_length]
  · exact fun d hd => fixDigits_mem_lt b hb _ _ d hd
  · exact h
  · exact ofDigits_fixDigits b hb _ _ (ofDigits_lt b ds h)

theorem foldl_bytesToHexDigits : ∀ (bs : List Nat) (a : Nat),
    List.foldl (fun x d => x * 16 + d) a (bytesToHexDigits bs) =
      List.foldl (fun x d => x * 256 + d) a bs := by
  intro bs
  induction bs with
  | nil => intro a; rfl
  | cons b t ih =>
      intro a
      show List.foldl (fun x d => x * 16 + d) ((a * 16 + b / 16) * 16 + b % 16)
        (bytesToHexDigits t) = _
      have harith : (a * 16 + b / 16) * 16 + b % 16 = a * 256 + b := by omega
      rw [harith, ih]
      rfl

theorem ofDigits_bytesToHexDigits (bs : List Nat) :
    ofDigits 16 (bytesToHexDigits bs) = ofDigits 256 bs :=
  foldl_bytesToHexDigits bs 0

theorem bytesToHexDigits_mem_lt : ∀ bs : List Nat, (∀ x ∈ bs, x < 256) →
    ∀ d ∈ bytesToHexDigits bs, d < 16 := by
  intro bs
  induction bs with
  | nil => intro _ d hd; simp [bytesToHexDigits] at hd
  | cons b t ih =>
      intro h d hd
      have hb : b < 256 := h b (List.mem_cons_self b t)
      simp only [bytesToHexDigits, List.mem_cons] at hd
      rcases hd with rfl | rfl | hd
      · omega
      · omega
      · exact ih (fun x hx => h x (List.mem_cons_of_mem b hx)) d hd

theorem bytesToHexDigits_ne_nil (bs : List Nat) (h : bs ≠ []) : bytesToHexDigits bs ≠ [] := by
  cases bs with
  | nil => exact absurd rfl h
  | cons b t => simp [bytesToHexDigits]

theorem pad_toDigits_eq_fixDigits (b : Nat) (hb : 2 ≤ b) (k n : Nat) (hk : 1 ≤ k)
    (hn : n < b ^ k) :
    List.replicate (k - (toDigits b n).length) 0 ++ toDigits b n = fixDigits b k n := by
  have hL : (toDigits b n).length ≤ k := length_toDigits_le b hb n k hk hn
  apply ofDigits_inj b (by omega)
  · rw [List.length_append, List.length_replicate, fixDigits_length]
    omega
  · intro d hd
    rcases List.mem_append.1 hd with h1 | h2
    · have := List.eq_of_mem_replicate h1
      omega
    · exact toDigits_mem_lt b hb n d h2
  · exact fun e he => fixDigits_mem_lt b (by omega) k n e he
  · rw [ofDigits_replicate_zero, ofDigits_toDigits b hb, ofDigits_fixDigits b (by omega) k n hn]

theorem intToDecString_coe_nat (n : Nat) : intToDecString (n : Int) = natToDecString n := by
  unfold intToDecString
  rw [if_neg (by omega)]
  simp

theorem jsBigIntOfString_natToDecString (n : Nat) :
    jsBigIntOfString (natToDecString n) = .ok (n : Int) := by
  have hb : (2 : Nat) ≤ 10 := by omega
  have hmem := toDigits_mem_lt 10 hb n
  have hne := toDigits_ne_nil 10 n hb
  obtain ⟨d, t, hds⟩ := List.exists_cons_of_ne_nil hne
  have hd10 : d < 10 := hmem d (by rw [hds]; exact List.mem_cons_self d t)
  have hdata : (natToDecString n).data = digitChar d :: t.map digitChar := by
    show (toDigits 10 n).map digitChar = _
    rw [hds, List.map_cons]
  have hctd : charsToDigits decCharVal (digitChar d :: t.map digitChar) = some (d :: t) := by
    have h1 := charsToDigits_dec_map (d :: t) (by rw [← hds]; exact hmem)
    simpa using h1
  unfold jsBigIntOfString
  rw [hdata]
  rw [if_neg (by simp)]
  have htake : ¬ ((digitChar d :: t.map digitChar).take 2 = ['0', 'x']) := by
    intro hcontra
    cases t with
    | nil => simp at hcontra
    | cons d2 u =>
        have hd2 : d2 < 10 := hmem d2 (by
          rw [hds]
          exact List.mem_cons_of_mem d (List.mem_cons_self d2 u))
        simp [List.take] at hcontra
        exact digitChar_ne_x d2 hd2 hcontra.2
  rw [if_neg htake]
  have hhead : ¬ ((digitChar d :: t.map digitChar).head? = some '-') := by
    simp only [List.head?_cons, Option.some.injEq]
    exact digitChar_ne_dash d hd10
  rw [if_neg hhead]
  rw [hctd]
  show Except.ok ((ofDigits 10 (d :: t) : Nat) : Int) = _
  rw [← hds, ofDigits_toDigits 10 hb]

theorem toBigInt_ok (bs : List Nat) (hne : bs ≠ []) (hb : ∀ x ∈ bs, x < 256) :
    toBigInt bs = .ok ((ofDigits 256 bs : Nat) : Int) := by
  have hdig := bytesToHexDigits_mem_lt bs hb
  have hdne := bytesToHexDigits_ne_nil bs hne
  have hdata : ("0x" ++ bytesToHexString bs).data
      = '0' :: 'x' :: (bytesToHexDigits bs).map digitChar := by
    show ("0x" ++ String.mk ((bytesToHexDigits bs).map digitChar)).data = _
    simp
  unfold toBigInt
  unfold jsBigIntOfString
  rw [hdata]
  rw [if_neg (by simp)]
  rw [if_pos (by simp [List.take])]
  have hdrop : ('0' :: 'x' :: (bytesToHexDigits bs).map digitChar).drop 2
      = (bytesToHexDigits bs).map digitChar := rfl
  rw [hdrop, charsToDigits_hex_map _ hdig]
  show (if bytesToHexDigits bs = [] then
      Except.error (bigIntSyntaxError ("0x" ++ bytesToHexString bs))
    else Except.ok ((ofDigits 16 (bytesToHexDigits bs) : Nat) : Int)) =
      Except.ok ((ofDigits 256 bs : Nat) : Int)
  rw [if_neg hdne, ofDigits_bytesToHexDigits]

theorem toBigIntStr_ok (bs : List Nat) (hne : bs ≠ []) (hb : ∀ x ∈ bs, x < 256) :
    toBigIntStr bs = .ok (natToDecString (ofDigits 256 bs)) := by
  unfold toBigIntStr
  rw [toBigInt_ok bs hne hb]
  show Except.ok (intToDecString ((ofDigits 256 bs : Nat) : Int)) = _
  rw [intToDecString_coe_nat]

theorem fromBigInt_nat_of_lt (n : Nat) (h : n < 16 ^ 64) :
    fromBigInt (n : Int) 64 = fixDigits 256 32 n := by
  have hds := toDigits_mem_lt 16 (by omega) n
  have hlen : (toDigits 16 n).length ≤ 64 :=
    length_toDigits_le 16 (by omega) n 64 (by omega) h
  have hhex : intToHexString (n : Int) = natToHexString n := by
    unfold intToHexString
    rw [if_neg (by omega)]
    simp
  unfold fromBigInt hexStringToBytes padStartJS
  rw [hhex]
  have hdata : (natToHexString n).data = (toDigits 16 n).map digitChar := rfl
  rw [hdata, List.length_map]
  have hzero : ('0' : Char) = digitChar 0 := rfl
  rw [hzero, ← List.map_replicate, ← List.map_append]
  show hexCharsToBytes
      ((List.replicate (64 - (toDigits 16 n).length) 0 ++ toDigits 16 n).map digitChar) = _
  rw [hexCharsToBytes_map _ (by
    intro x hx
    rcases List.mem_append.1 hx with h1 | h2
    · have := List.eq_of_mem_replicate h1
      omega
    · exact hds x h2)]
  rw [pad_toDigits_eq_fixDigits 16 (by omega) 64 n (by omega) h]
  rw [show (64 : Nat) = 2 * 32 from rfl, pairsToBytes_fixDigits]

theorem fromBigInt_nat_of_ge (n : Nat) (h : 16 ^ 64 ≤ n) :
    fromBigInt (n : Int) 64 = pairsToBytes (toDigits 16 n) := by
  have hds := toDigits_mem_lt 16 (by omega) n
  have hlen : 65 ≤ (toDigits 16 n).length := length_toDigits_ge 16 (by omega) n 64 h
  have hhex : intToHexString (n : Int) = natToHexString n := by
    unfold intToHexString
    rw [if_neg (by omega)]
    simp
  unfold fromBigInt hexStringToBytes padStartJS
  rw [hhex]
  have hdata : (natToHexString n).data = (toDigits 16 n).map digitChar := rfl
  rw [hdata, List.length_map]
  rw [show 64 - (toDigits 16 n).length = 0 from by omega]
  rw [List.replicate_zero, List.nil_append]
  show hexCharsToBytes ((toDigits 16 n).map digitChar) = _
  rw [hexCharsToBytes_map _ hds]

theorem fromBigIntStr_natToDecString_lt (n : Nat) (h : n < 16 ^ 64) :
    fromBigIntStr (natToDecString n) 64 = .ok (fixDigits 256 32 n) := by
  unfold fromBigIntStr
  rw [jsBigIntOfString_natToDecString]
  show Except.ok (fromBigInt (n : Int) 64) = _
  rw [fromBigInt_nat_of_lt n h]

theorem fromBigIntStr_natToDecString_ge (n : Nat) (h : 16 ^ 64 ≤ n) :
    fromBigIntStr (natToDecString n) 64 = .ok (pairsToBytes (toDigits 16 n)) := by
  unfold fromBigIntStr
  rw [jsBigIntOfString_natToDecString]
  show Except.ok (fromBigInt (n : Int) 64) = _
  rw [fromBigInt_nat_of_ge n h]

/-! ## Object-state lemmas -/

theorem JObj.lookup_set_same : ∀ (fs : JObj) (k : String) (v : JVal),
    (fs.set k v).lookup k = v
  | .nil, k, v => by simp [JObj.set, JObj.lookup]
  | .cons k' v' rest, k, v => by
      by_cases h : k' = k
      · simp [JObj.set, JObj.lookup, h]
      · simp only [JObj.set, if_neg h, JObj.lookup]
        exact JObj.lookup_set_same rest k v

theorem JObj.lookup_set_ne : ∀ (fs : JObj) (k k' : String) (v : JVal), k' ≠ k →
    (fs.set k v).lookup k' = fs.lookup k'
  | .nil, k, k', v => fun h => by
      simp only [JObj.set, JObj.lookup]
      rw [if_neg (fun hh : k = k' => h hh.symm)]
  | .cons k'' v'' rest, k, k', v => fun h => by
      by_cases hk : k'' = k
      · subst hk
        simp only [JObj.set, if_pos rfl, JObj.lookup]
        rw [if_neg (fun hh : k'' = k' => h hh.symm), if_neg (fun hh : k'' = k' => h hh.symm)]
      · simp only [JObj.set, if_neg hk, JObj.lookup]
        by_cases hk' : k'' = k'
        · rw [if_pos hk', if_pos hk']
        · rw [if_neg hk', if_neg hk']
          exact JObj.lookup_set_ne rest k k' v h

theorem JObj.set_set_same : ∀ (fs : JObj) (k : String) (a b : JVal),
    (fs.set k a).set k b = fs.set k b
  | .nil, k, a, b => by simp [JObj.set]
  | .cons k' v rest, k, a, b => by
      by_cases h : k' = k
      · simp [JObj.set, h]
      · simp only [JObj.set, if_neg h]
        rw [JObj.set_set_same rest k a b]

theorem JObj.lookup_of_not_hasKey : ∀ (fs : JObj) (k : String), fs.hasKey k = false →
    fs.lookup k = .undefined
  | .nil, _ => fun _ => rfl
  | .cons k' v rest, k => fun h => by
      simp only [JObj.hasKey, Bool.or_eq_false_iff, decide_eq_false_iff_not] at h
      simp only [JObj.lookup, if_neg h.1]
      exact JObj.lookup_of_not_hasKey rest k h.2

theorem getField_obj (fields : JObj) (k : String) :
    getField (.obj fields) k = fields.lookup k := rfl

theorem setField_obj (fields : JObj) (k : String) (v : JVal) :
    setField (.obj fields) k v = .obj (fields.set k v) := rfl

theorem exists_obj_of_getField_isStr (v : JVal) (k : String)
    (h : (getField v k).isStr = true) : ∃ fields, v = .obj fields := by
  cases v with
  | obj fields => exact ⟨fields, rfl⟩
  | null => simp [getField, JVal.isStr] at h
  | undefined => simp [getField, JVal.isStr] at h
  | bool b => simp [getField, JVal.isStr] at h
  | num n => simp [getField, JVal.isStr] at h
  | str s => simp [getField, JVal.isStr] at h
  | arr a => simp [getField, JVal.isStr] at h
  | buf b => simp [getField, JVal.isStr] at h

/-! ## Behaviour lemmas for the signing core -/

theorem sign_ok_shapes (E : Env) (m pk s : JVal) (x : Signature × List Nat)
    (h : sign E m pk s = .ok x) :
    m.isStr = true ∧ pk.isBuf = true ∧ s.isStr = true := by
  unfold sign at h
  by_cases hc : ¬ (m.isStr = true) ∨ ¬ (pk.isBuf = true) ∨ ¬ (s.isStr = true)
  · rw [if_pos hc] at h
    simp at h
  · tauto

theorem sign_str (E : Env) (m s : String) (pk : List Nat) :
    sign E (.str m) (.buf pk) (.str s) =
      match signBody E m s pk with
      | .ok r => .ok r
      | .error e => .error ⟨"Error", "Failed to sign the message: " ++ e.render⟩ := by
  unfold sign
  rw [if_neg (by simp [JVal.isStr, JVal.isBuf])]
  rfl

theorem splitSignature_ok (bs : List Nat) (rid : Option Int) (hlen : bs.length = 64)
    (hbytes : ∀ x ∈ bs, x < 256) :
    splitSignature (bs, rid) = .ok ⟨recIdToString rid,
      natToDecString (ofDigits 256 (bs.take 32)),
      natToDecString (ofDigits 256 (bs.drop 32))⟩ := by
  have htne : bs.take 32 ≠ [] := by
    have : (bs.take 32).length = 32 := by
      rw [List.length_take]
      omega
    intro hcontra
    rw [hcontra] at this
    simp at this
  have hdne : bs.drop 32 ≠ [] := by
    have : (bs.drop 32).length = 32 := by
      rw [List.length_drop]
      omega
    intro hcontra
    rw [hcontra] at this
    simp at this
  have htb : ∀ x ∈ bs.take 32, x < 256 := fun x hx => hbytes x (List.take_subset 32 bs hx)
  have hdb : ∀ x ∈ bs.drop 32, x < 256 := fun x hx => hbytes x (List.drop_subset 32 bs hx)
  unfold splitSignature
  rw [if_neg (by simp [hlen])]
  show (match toBigIntStr (bs.take 32) with
    | Except.error e => Except.error e
    | Except.ok rStr =>
        match toBigIntStr (bs.drop 32) with
        | Except.error e => Except.error e
        | Except.ok sStr => Except.ok (⟨recIdToString rid, rStr, sStr⟩ : Signature)) = _
  rw [toBigIntStr_ok _ htne htb, toBigIntStr_ok _ hdne hdb]

theorem signBody_ok (E : Env) (m s : String) (pk sg : List Nat) (rid : Option Int)
    (hsig : E.ecc.signRecoverable (sha256Str E (m ++ s)) pk = .ok (sg, rid))
    (hlen : sg.length = 64) (hbytes : ∀ x ∈ sg, x < 256) :
    signBody E m s pk = .ok (⟨recIdToString rid,
      natToDecString (ofDigits 256 (sg.take 32)),
      natToDecString (ofDigits 256 (sg.drop 32))⟩, sha256Str E (m ++ s)) := by
  unfold signBody
  show (match E.ecc.signRecoverable (sha256Str E (m ++ s)) pk with
    | Except.error e => Except.error e
    | Except.ok recoverableSig =>
        match splitSignature recoverableSig with
        | Except.error e => Except.error e
        | Except.ok signature => Except.ok (signature, sha256Str E (m ++ s))) = _
  rw [hsig]
  show (match splitSignature (sg, rid) with
    | Except.error e => Except.error e
    | Except.ok signature => Except.ok (signature, sha256Str E (m ++ s))) = _
  rw [splitSignature_ok sg rid hlen hbytes]

theorem joinSignature_decimal (vs : String) (rn sn : Nat)
    (hr : rn < 16 ^ 64) (hs : sn < 16 ^ 64) :
    joinSignature (Signature.toJVal ⟨vs, natToDecString rn, natToDecString sn⟩)
      = .ok (fixDigits 256 32 rn ++ fixDigits 256 32 sn, jsNumberOfString vs) := by
  unfold joinSignature
  rw [if_neg (by simp [Signature.toJVal, mkObj, typeofIsObject, JObj.ofList])]
  have hrfield : getField (Signature.toJVal ⟨vs, natToDecString rn, natToDecString sn⟩) "r"
      = .str (natToDecString rn) := rfl
  have hsfield : getField (Signature.toJVal ⟨vs, natToDecString rn, natToDecString sn⟩) "s"
      = .str (natToDecString sn) := rfl
  have hvfield : getField (Signature.toJVal ⟨vs, natToDecString rn, natToDecString sn⟩) "v"
      = .str vs := rfl
  rw [if_neg (by rw [hrfield, hsfield, hvfield]; simp [JVal.isStr])]
  rw [hrfield, hsfield, hvfield]
  show (match fromBigIntStr (natToDecString rn) 64 with
    | Except.error e => Except.error e
    | Except.ok r =>
        match fromBigIntStr (natToDecString sn) 64 with
        | Except.error e => Except.error e
        | Except.ok s => Except.ok (r ++ s, jsNumberOfString vs)) = _
  rw [fromBigIntStr_natToDecString_lt rn hr, fromBigIntStr_natToDecString_lt sn hs]

theorem writeSigHash_flat (fields : JObj) (sgn : Signature) (mh : List Nat)
    (hprv : truthy (fields.lookup "prv") = false) :
    writeSigHash (.obj fields) sgn mh
      = .obj ((fields.set "sig" sgn.toJVal).set "hash" (.str (bytesToHexString mh))) := by
  unfold writeSigHash
  rw [getField_obj, hprv]
  simp only [Bool.false_eq_true, if_false]
  rw [setField_obj]
  have h1 : truthy (getField (.obj (fields.set "sig" sgn.toJVal)) "prv") = false := by
    rw [getField_obj, JObj.lookup_set_ne fields "sig" "prv" _ (by decide), hprv]
  rw [h1]
  simp only [Bool.false_eq_true, if_false]
  rw [setField_obj]

theorem writeSigHash_nested (fields pfs : JObj) (sgn : Signature) (mh : List Nat)
    (hprv : fields.lookup "prv" = .obj pfs) :
    writeSigHash (.obj fields) sgn mh
      = .obj (fields.set "prv"
          (.obj ((pfs.set "sig" sgn.toJVal).set "hash" (.str (bytesToHexString mh))))) := by
  unfold writeSigHash
  rw [show getField (.obj fields) "prv" = JVal.obj pfs from hprv]
  simp only [truthy, if_true]
  rw [setField_obj, setField_obj]
  have h1 : getField (.obj (fields.set "prv" (.obj (pfs.set "sig" sgn.toJVal)))) "prv"
      = JVal.obj (pfs.set "sig" sgn.toJVal) := by
    rw [getField_obj, JObj.lookup_set_same]
  rw [h1]
  simp only [truthy, if_true]
  rw [setField_obj, setField_obj, JObj.set_set_same]

theorem utf8OfChars_append : ∀ l1 l2 : List Char,
    utf8OfChars (l1 ++ l2) = utf8OfChars l1 ++ utf8OfChars l2 := by
  intro l1 l2
  induction l1 with
  | nil => rfl
  | cons c cs ih =>
      show utf8Char c ++ utf8OfChars (cs ++ l2)
        = (utf8Char c ++ utf8OfChars cs) ++ utf8OfChars l2
      rw [ih, List.append_assoc]

theorem utf8Bytes_append (a b : String) :
    utf8Bytes (a ++ b) = utf8Bytes a ++ utf8Bytes b := by
  unfold utf8Bytes
  rw [show (a ++ b).data = a.data ++ b.data by simp, utf8OfChars_append]

theorem verify_ok_shape (E : Env) (h p : List Nat) (sig proto : JVal)
    (r : VerificationResult) (hok : verify E h p sig proto = .ok r) :
    r.result = jsonStr proto ∧ r.test.pub = bytesToHexString p := by
  unfold verify at hok
  split at hok
  · exact absurd hok (by simp)
  · split at hok
    · exact absurd hok (by simp)
    · split at hok
      · exact absurd hok (by simp)
      · cases hok
        exact ⟨rfl, rfl⟩

theorem exists_obj_of_getField_ne_undef (v : JVal) (k : String)
    (h : getField v k ≠ .undefined) : ∃ fields, v = .obj fields := by
  cases v with
  | obj fields => exact ⟨fields, rfl⟩
  | null => exact absurd rfl h
  | undefined => exact absurd rfl h
  | bool b => exact absurd rfl h
  | num n => exact absurd rfl h
  | str s => exact absurd rfl h
  | arr a => exact absurd rfl h
  | buf b => exact absurd rfl h

theorem signBody_ok_hash (E : Env) (m s : String) (pk : List Nat)
    (r : Signature × List Nat) (h : signBody E m s pk = .ok r) :
    r.2 = sha256Str E (m ++ s) := by
  unfold signBody at h
  simp only [] at h
  split at h
  · exact absurd h (by simp)
  · split at h
    · exact absurd h (by simp)
    · cases h
      rfl

/-- Where a draft keeps its signature, by the flat/nested convention the
sources infer from the truthiness of `prv`. -/
def sigLocation (d : JVal) : JVal :=
  if truthy (getField d "prv")
  then getField (getField d "prv") "sig"
  else getField d "sig"

/-- Where a draft keeps its hash. -/
def hashLocation (d : JVal) : JVal :=
  if truthy (getField d "prv")
  then getField (getField d "prv") "hash"
  else getField d "hash"

/-! ## Concrete black-box environments

Used to run the code paths at concrete inputs.  Each satisfies the external
interface of section 6 of the spec; they differ in the verdicts and failures
the black box produces. -/

/-- Every curve call succeeds: a fixed 64-byte signature, verdict true,
recovery returns a fixed 33-byte key; SHA-256 a fixed 32-byte digest. -/
def okEnv : Env :=
  { ecc := { signRecoverable := fun _ _ => .ok (List.replicate 64 0, some 0),
             verify := fun _ _ _ => .ok true,
             recover := fun _ _ _ _ => .ok (some (List.replicate 33 0)) },
    sha256 := fun _ => List.replicate 32 0 }

/-- Like `okEnv`, but the curve verdict is false (a failing verification). -/
def falseVerifyEnv : Env :=
  { okEnv with ecc := { okEnv.ecc with verify := fun _ _ _ => .ok false } }

/-- Like `okEnv`, but `ecc.verify` throws, as tiny-secp256k1 does on a
malformed signature value. -/
def throwVerifyEnv : Env :=
  { okEnv with ecc := { okEnv.ecc with
      verify := fun _ _ _ => .error ⟨"TypeError", "Expected Signature"⟩ } }

/-- Like `okEnv`, but the curve signer throws, as tiny-secp256k1 does on a
buffer that is not a valid 32-byte scalar. -/
def throwSignEnv : Env :=
  { okEnv with ecc := { okEnv.ecc with
      signRecoverable := fun _ _ => .error ⟨"TypeError", "Expected Private"⟩ } }

/-- Like `okEnv`, but the verdict is false and recovery yields no point. -/
def recoverNoneEnv : Env :=
  { okEnv with ecc := { okEnv.ecc with
      verify := fun _ _ _ => .ok false,
      recover := fun _ _ _ _ => .ok none } }

/-! ## Claims -/

/-- The all-zero signature `{v:"0", r:"0", s:"0"}` from claim C3. -/
def zeroSigJVal : JVal := mkObj [("v", .str "0"), ("r", .str "0"), ("s", .str "0")]

/-- C3: the claim says `verify` with the all-zero signature raises a
RecoveryFailed error whose user-facing message is "Failed to recover the
public key: …", the format failure being caught and re-raised wrapped.  The
code does otherwise: `joinSignature` SUCCEEDS on the zero signature (it
decodes to 64 zero bytes and recovery id 0, so the invalid-format path the
claim relies on never fires), and the cited `verify` has no try/catch and no
such message anywhere — whatever the curve library throws on the zero
signature escapes exactly as thrown, unwrapped.  The repository's own test
expects the wrapped message, so the code contradicts its tests. -/
theorem C3_zero_signature_passthrough (E : Env) (hash pub : List Nat) (proto : JVal)
    (e : JsError)
    (hthrow : E.ecc.verify hash pub (List.replicate 64 0) = .error e) :
    joinSignature zeroSigJVal = .ok (List.replicate 64 0, some 0) ∧
    verify E hash pub zeroSigJVal proto = .error e := by
  have hjoin : joinSignature zeroSigJVal = .ok (List.replicate 64 0, some 0) := by decide
  refine ⟨hjoin, ?_⟩
  unfold verify
  rw [hjoin]
  show (match E.ecc.verify hash pub (List.replicate 64 0) with
    | Except.error e => Except.error e
    | Except.ok isValid =>
        match E.ecc.recover hash (List.replicate 64 0) (some 0) true with
        | Except.error e => Except.error e
        | Except.ok recovered =>
            Except.ok (VerificationResult.mk
              (VTest.mk isValid (bytesToHexString pub)
                (bytesToHexString (recovered.getD (List.replicate 33 0))))
              (jsonStr proto)))
    = Except.error e
  rw [hthrow]

/-- C3 witness: at a concrete 32-byte hash, 33-byte key and an environment
whose curve `verify` throws TypeError "Expected Signature" on the zero
signature (the failure the repository test records), the error escapes
`verify` unwrapped. -/
theorem C3_witness :
    throwVerifyEnv.ecc.verify (List.replicate 32 0) (List.replicate 33 0)
      (List.replicate 64 0) = .error ⟨"TypeError", "Expected Signature"⟩ ∧
    (joinSignature zeroSigJVal = .ok (List.replicate 64 0, some 0) ∧
     verify throwVerifyEnv (List.replicate 32 0) (List.replicate 33 0) zeroSigJVal
       (mkObj []) = .error ⟨"TypeError", "Expected Signature"⟩) :=
  ⟨rfl, C3_zero_signature_passthrough throwVerifyEnv _ _ (mkObj []) _ rfl⟩

/-- C2: the claim says `signVerification` is a flat variant — salt read from
`draft.salt`, signature written to `draft.sig`, returning a successful
result.  The code does otherwise: the draft's `prv` field holds the privilege
authority id, a string; whenever it is non-empty it is truthy, so
`signAndVerify` takes the NESTED branch, reads `draft.prv.salt` — undefined
on a string — and `sign` rejects the undefined salt with
"Invalid input types".  `signVerification` therefore throws for every
non-empty authority id and never returns a result. -/
theorem C2_signVerification_throws (E : Env) (privKey pubKey : JVal)
    (authorityId hashStr collection : String) (sequence : Int) (address salt : String)
    (kp : Keypair)
    (hkp : getKeypairBuff privKey pubKey = .ok kp)
    (hid : authorityId ≠ "") :
    signVerification E privKey pubKey authorityId hashStr collection sequence address salt
      = .error ⟨"Error", "Invalid input types"⟩ := by
  have hprv : getField
      (verificationProtocol authorityId hashStr collection sequence address salt) "prv"
      = .str authorityId := rfl
  have hsalt : draftSalt
      (verificationProtocol authorityId hashStr collection sequence address salt)
      = .undefined := by
    unfold draftSalt
    rw [hprv]
    rw [if_pos (by simp [truthy, hid])]
    rfl
  have hsign : sign E
      (.str (verificationBaseMessage authorityId hashStr collection sequence address salt))
      (.buf kp.privKeyBuffer) .undefined = .error ⟨"Error", "Invalid input types"⟩ := by
    unfold sign
    rw [if_pos (by simp [JVal.isStr])]
  unfold signVerification
  rw [hkp]
  show signAndVerify E
      (verificationProtocol authorityId hashStr collection sequence address salt) kp
      (verificationBaseMessage authorityId hashStr collection sequence address salt)
      = Except.error ⟨"Error", "Invalid input types"⟩
  unfold signAndVerify signAndVerifyD
  simp only [hsalt, hsign]
  rfl

/-- C2 witness: concrete well-formed keys and the authority id "a"; the call
throws "Invalid input types". -/
theorem C2_witness :
    getKeypairBuff (.buf (List.replicate 32 0)) (.buf (List.replicate 33 0))
      = .ok ⟨List.replicate 32 0, List.replicate 33 0⟩ ∧
    ("a" : String) ≠ "" ∧
    signVerification okEnv (.buf (List.replicate 32 0)) (.buf (List.replicate 33 0))
      "a" "h" "c" 7 "addr" "s" = .error ⟨"Error", "Invalid input types"⟩ :=
  ⟨rfl, by decide,
   C2_signVerification_throws okEnv _ _ "a" "h" "c" 7 "addr" "s" _ rfl (by decide)⟩

/-- C6 counterexample: an 11-byte buffer (not 32 bytes) passes `sign`'s input
validation — the claim says it must fail with InvalidInput ("Invalid input
types") — and instead reaches the curve signer, whose TypeError comes back as
"Failed to sign the message: TypeError: Expected Private", exactly the
behaviour the repository's own test expects for a wrong-shaped key buffer. -/
theorem C6_counterexample :
    (List.replicate 11 7).length ≠ 32 ∧
    sign throwSignEnv (.str "test_message") (.buf (List.replicate 11 7)) (.str "test_salt")
      = .error ⟨"Error", "Failed to sign the message: TypeError: Expected Private"⟩ := by
  constructor
  · decide
  · decide

/-- C6 amended: `sign` validates only that the message and salt are strings
and that the private key is a Buffer — of any length — before doing any work:
it fails with "Invalid input types" exactly when one of those three shape
checks fails, and for every input of the validated shapes it never produces
that error (a wrong-length key buffer reaches hashing and the curve signer,
whose failure surfaces as "Failed to sign the message: …" instead). -/
theorem C6_amended_validation (E : Env) (message privKeyBuffer salt : JVal) :
    sign E message privKeyBuffer salt = .error ⟨"Error", "Invalid input types"⟩
      ↔ ¬ (message.isStr = true ∧ privKeyBuffer.isBuf = true ∧ salt.isStr = true) := by
  unfold sign
  by_cases hc : ¬ (message.isStr = true) ∨ ¬ (privKeyBuffer.isBuf = true) ∨
      ¬ (salt.isStr = true)
  · rw [if_pos hc]
    constructor
    · intro _
      tauto
    · intro _
      rfl
  · rw [if_neg hc]
    constructor
    · intro hcontra
      exfalso
      cases hb : signBody E message.asString salt.asString privKeyBuffer.asBytes with
      | ok r => rw [hb] at hcontra; simp at hcontra
      | error e =>
          rw [hb] at hcontra
          simp only [Except.error.injEq, JsError.mk.injEq] at hcontra
          have hlen := congrArg String.length hcontra.2
          rw [String.length_append] at hlen
          have h1 : ("Failed to sign the message: " : String).length = 28 := rfl
          have h2 : ("Invalid input types" : String).length = 19 := rfl
          omega
    · intro hcontra
      exfalso
      tauto

/-- C4 counterexample: the decimal string for 10 to the power 80 (a value far
beyond 32 bytes) does not make `fromBigIntStr` fail — the claim requires an
EncodingError — it silently returns a 33-byte buffer, wider than the 32 bytes
the default width requests. -/
theorem C4_counterexample :
    (fromBigIntStr
        "100000000000000000000000000000000000000000000000000000000000000000000000000000000"
        64).map List.length = .ok 33 := by
  decide

/-- C4 amended: `fromBigIntStr` never fails on a decimal string and performs
no size check.  A value fitting 64 hex digits is returned as exactly the
requested 32 bytes; a larger value is silently returned as the bytes of its
full (unpadded) hex expansion — a buffer of hexDigits/2 bytes, at least 32
and wider than 32 as soon as the value needs 66 hex digits, with the lowest
nibble dropped when the count is odd. -/
theorem C4_amended_no_size_check (n : Nat) :
    (n < 16 ^ 64 → fromBigIntStr (natToDecString n) 64 = .ok (fixDigits 256 32 n)) ∧
    (16 ^ 64 ≤ n → fromBigIntStr (natToDecString n) 64 = .ok (pairsToBytes (toDigits 16 n))
      ∧ 32 ≤ (pairsToBytes (toDigits 16 n)).length) := by
  constructor
  · exact fromBigIntStr_natToDecString_lt n
  · intro h
    refine ⟨fromBigIntStr_natToDecString_ge n h, ?_⟩
    rw [pairsToBytes_length]
    have := length_toDigits_ge 16 (by omega) n 64 h
    omega

/-- C4 witness: both branches of the amended statement at concrete values —
5 fits and yields exactly 32 bytes; 16 to the power 64 does not fit and still
succeeds. -/
theorem C4_witness :
    ((5 : Nat) < 16 ^ 64 ∧
      fromBigIntStr (natToDecString 5) 64 = .ok (fixDigits 256 32 5)) ∧
    (16 ^ 64 ≤ (16 ^ 64 : Nat) ∧
      fromBigIntStr (natToDecString (16 ^ 64)) 64
        = .ok (pairsToBytes (toDigits 16 (16 ^ 64)))
      ∧ 32 ≤ (pairsToBytes (toDigits 16 (16 ^ 64))).length) :=
  ⟨⟨by decide, (C4_amended_no_size_check 5).1 (by decide)⟩,
   ⟨le_refl _, (C4_amended_no_size_check (16 ^ 64)).2 (le_refl _)⟩⟩

/-- C5: for every 64-byte buffer and recovery id 0 or 1, `joinSignature`
applied to the `splitSignature` output (default decimal format) returns
exactly the original buffer and recovery id — join is the exact left inverse
of split.  Confirmed. -/
theorem C5_split_join_roundtrip (bs : List Nat) (rid : Int)
    (hlen : bs.length = 64) (hbytes : ∀ x ∈ bs, x < 256)
    (hrid : rid = 0 ∨ rid = 1) :
    ∃ sig : Signature, splitSignature (bs, some rid) = .ok sig ∧
      joinSignature sig.toJVal = .ok (bs, some rid) := by
  refine ⟨⟨recIdToString (some rid),
    natToDecString (ofDigits 256 (bs.take 32)),
    natToDecString (ofDigits 256 (bs.drop 32))⟩,
    splitSignature_ok bs (some rid) hlen hbytes, ?_⟩
  have hta : (bs.take 32).length = 32 := by
    rw [List.length_take]
    omega
  have hda : (bs.drop 32).length = 32 := by
    rw [List.length_drop]
    omega
  have htb : ∀ x ∈ bs.take 32, x < 256 := fun x hx => hbytes x (List.take_subset 32 bs hx)
  have hdb : ∀ x ∈ bs.drop 32, x < 256 := fun x hx => hbytes x (List.drop_subset 32 bs hx)
  have hpow : (256 : Nat) ^ 32 = 16 ^ 64 := by norm_num
  have hrlt : ofDigits 256 (bs.take 32) < 16 ^ 64 := by
    have hx := ofDigits_lt 256 (bs.take 32) htb
    rw [hta, hpow] at hx
    exact hx
  have hslt : ofDigits 256 (bs.drop 32) < 16 ^ 64 := by
    have hx := ofDigits_lt 256 (bs.drop 32) hdb
    rw [hda, hpow] at hx
    exact hx
  rw [joinSignature_decimal _ _ _ hrlt hslt]
  have h1 : fixDigits 256 32 (ofDigits 256 (bs.take 32)) = bs.take 32 := by
    have hx := fixDigits_ofDigits_bytes 256 (by omega) (bs.take 32) htb
    rw [hta] at hx
    exact hx
  have h2 : fixDigits 256 32 (ofDigits 256 (bs.drop 32)) = bs.drop 32 := by
    have hx := fixDigits_ofDigits_bytes 256 (by omega) (bs.drop 32) hdb
    rw [hda] at hx
    exact hx
  have h3 : jsNumberOfString (recIdToString (some rid)) = some rid := by
    rcases hrid with rfl | rfl <;> decide
  rw [h1, h2, List.take_append_drop, h3]

/-- C5 witness: the roundtrip at the concrete buffer of bytes 0..63 and
recovery id 1. -/
theorem C5_witness :
    (List.range 64).length = 64 ∧ (∀ x ∈ List.range 64, x < 256) ∧
    ((1 : Int) = 0 ∨ (1 : Int) = 1) ∧
    (∃ sig : Signature, splitSignature (List.range 64, some 1) = .ok sig ∧
      joinSignature sig.toJVal = .ok (List.range 64, some 1)) :=
  ⟨by decide, by decide, Or.inr rfl,
   C5_split_join_roundtrip (List.range 64) 1 (by decide) (by decide) (Or.inr rfl)⟩

/-- A `{v, r, s}` object whose fields are all strings but whose `r` is not a
numeric string. -/
def junkSig : JVal := mkObj [("v", .str "0"), ("r", .str "x"), ("s", .str "0")]

/-- C7 counterexample: the claim says `verify` never raises for any
well-formed Signature (r, s, v all strings).  It does: with `r = "x"` (all
three fields strings), `BigInt("x")` inside `fromBigIntStr` throws a
SyntaxError which escapes `verify` — decoding failures are exceptions even
though every field is a string. -/
theorem C7_counterexample :
    (getField junkSig "r").isStr = true ∧ (getField junkSig "s").isStr = true ∧
    (getField junkSig "v").isStr = true ∧
    verify okEnv (List.replicate 32 0) (List.replicate 33 0) junkSig (mkObj [])
      = .error ⟨"SyntaxError", "Cannot convert x to a BigInt"⟩ :=
  ⟨by decide, by decide, by decide, by decide⟩

/-- C7 amended: for every Signature whose `r` and `s` are decimal numeric
strings (of values that fit 32 bytes), `verify` raises nothing when the
verdict is false: it returns the curve library's boolean verdict as
`test.valid`, and when public-key recovery yields no point, `pubRecovered` is
the hex encoding of a 33-byte all-zero buffer rather than an error — visible
in the conclusion through `Option.getD` on the recovery result. -/
theorem C7_amended_verify_result (E : Env) (hash pub : List Nat) (proto : JVal)
    (vs : String) (rn sn : Nat) (b : Bool) (ro : Option (List Nat))
    (hr : rn < 16 ^ 64) (hs : sn < 16 ^ 64)
    (hv : E.ecc.verify hash pub (fixDigits 256 32 rn ++ fixDigits 256 32 sn) = .ok b)
    (hrec : E.ecc.recover hash (fixDigits 256 32 rn ++ fixDigits 256 32 sn)
        (jsNumberOfString vs) true = .ok ro) :
    verify E hash pub (Signature.toJVal ⟨vs, natToDecString rn, natToDecString sn⟩) proto
      = .ok (VerificationResult.mk
          (VTest.mk b (bytesToHexString pub)
            (bytesToHexString (ro.getD (List.replicate 33 0))))
          (jsonStr proto)) := by
  unfold verify
  rw [joinSignature_decimal vs rn sn hr hs]
  show (match E.ecc.verify hash pub (fixDigits 256 32 rn ++ fixDigits 256 32 sn) with
    | Except.error e => Except.error e
    | Except.ok isValid =>
        match E.ecc.recover hash (fixDigits 256 32 rn ++ fixDigits 256 32 sn)
            (jsNumberOfString vs) true with
        | Except.error e => Except.error e
        | Except.ok recovered =>
            Except.ok (VerificationResult.mk
              (VTest.mk isValid (bytesToHexString pub)
                (bytesToHexString (recovered.getD (List.replicate 33 0))))
              (jsonStr proto))) = _
  rw [hv, hrec]

/-- C7 witness: an environment whose curve verdict is false and whose
recovery yields no point; `verify` returns (does not raise) a result with
`valid = false` and the all-zero recovered key. -/
theorem C7_witness :
    ((0 : Nat) < 16 ^ 64) ∧
    recoverNoneEnv.ecc.verify (List.replicate 32 0) (List.replicate 33 0)
      (fixDigits 256 32 0 ++ fixDigits 256 32 0) = .ok false ∧
    recoverNoneEnv.ecc.recover (List.replicate 32 0)
      (fixDigits 256 32 0 ++ fixDigits 256 32 0) (jsNumberOfString "0") true = .ok none ∧
    verify recoverNoneEnv (List.replicate 32 0) (List.replicate 33 0)
      (Signature.toJVal ⟨"0", natToDecString 0, natToDecString 0⟩) (mkObj [])
      = .ok (VerificationResult.mk
          (VTest.mk false (bytesToHexString (List.replicate 33 0))
            (bytesToHexString ((none : Option (List Nat)).getD (List.replicate 33 0))))
          (jsonStr (mkObj []))) :=
  ⟨by decide, rfl, rfl,
   C7_amended_verify_result recoverNoneEnv _ _ (mkObj []) "0" 0 0 false none
     (by decide) (by decide) rfl rfl⟩

/-- C8: the message hash `sign` returns is SHA-256 of the UTF-8 bytes of the
message concatenated directly with the UTF-8 bytes of the salt — plain
concatenation, no length prefix, no delimiter — and (SHA-256 producing
32-byte digests) it is exactly 32 bytes.  Confirmed. -/
theorem C8_hash_is_sha256_of_concat (E : Env) (m s : String) (pk : List Nat)
    (sig : Signature) (h : List Nat)
    (hsha : ∀ bytes : List Nat, (E.sha256 bytes).length = 32)
    (hok : sign E (.str m) (.buf pk) (.str s) = .ok (sig, h)) :
    h = E.sha256 (utf8Bytes m ++ utf8Bytes s) ∧ h.length = 32 := by
  rw [sign_str] at hok
  cases hb : signBody E m s pk with
  | error e =>
      rw [hb] at hok
      exact absurd hok (by simp)
  | ok r =>
      rw [hb] at hok
      change Except.ok r = Except.ok (sig, h) at hok
      injection hok with hok
      have hr2 : r.2 = sha256Str E (m ++ s) := signBody_ok_hash E m s pk r hb
      rw [hok] at hr2
      have hh : h = E.sha256 (utf8Bytes m ++ utf8Bytes s) := by
        rw [show h = sha256Str E (m ++ s) from hr2]
        unfold sha256Str
        rw [utf8Bytes_append]
      exact ⟨hh, by rw [hh]; exact hsha _⟩

/-- C8 witness: the hash fact at a concrete environment and inputs. -/
theorem C8_witness :
    (∀ bytes : List Nat, (okEnv.sha256 bytes).length = 32) ∧
    sign okEnv (.str "test_message") (.buf (List.replicate 32 0)) (.str "test_salt")
      = .ok (⟨"0", "0", "0"⟩, List.replicate 32 0) ∧
    (List.replicate 32 0 = okEnv.sha256 (utf8Bytes "test_message" ++ utf8Bytes "test_salt")
      ∧ (List.replicate 32 0 : List Nat).length = 32) :=
  ⟨fun _ => rfl, by decide,
   C8_hash_is_sha256_of_concat okEnv "test_message" "test_salt" (List.replicate 32 0)
     ⟨"0", "0", "0"⟩ (List.replicate 32 0) (fun _ => rfl) (by decide)⟩

theorem sigLocation_nested (fields pfs : JObj) (sgnJ hashV : JVal) :
    sigLocation (.obj (fields.set "prv" (.obj ((pfs.set "sig" sgnJ).set "hash" hashV))))
      = sgnJ := by
  unfold sigLocation
  rw [getField_obj, JObj.lookup_set_same]
  rw [if_pos (by simp [truthy])]
  rw [getField_obj, JObj.lookup_set_ne _ _ _ _ (by decide), JObj.lookup_set_same]

theorem hashLocation_nested (fields pfs : JObj) (sgnJ hashV : JVal) :
    hashLocation (.obj (fields.set "prv" (.obj ((pfs.set "sig" sgnJ).set "hash" hashV))))
      = hashV := by
  unfold hashLocation
  rw [getField_obj, JObj.lookup_set_same]
  rw [if_pos (by simp [truthy])]
  rw [getField_obj, JObj.lookup_set_same]

theorem getField_prv_double_set (fields : JObj) (sgnJ hashV : JVal) :
    getField (.obj ((fields.set "sig" sgnJ).set "hash" hashV)) "prv"
      = fields.lookup "prv" := by
  rw [getField_obj, JObj.lookup_set_ne _ _ _ _ (by decide),
      JObj.lookup_set_ne _ _ _ _ (by decide)]

theorem sigLocation_flat (fields : JObj) (sgnJ hashV : JVal)
    (hprv : truthy (fields.lookup "prv") = false) :
    sigLocation (.obj ((fields.set "sig" sgnJ).set "hash" hashV)) = sgnJ := by
  unfold sigLocation
  rw [getField_prv_double_set, hprv]
  simp only [Bool.false_eq_true, if_false]
  rw [getField_obj, JObj.lookup_set_ne _ _ _ _ (by decide), JObj.lookup_set_same]

theorem hashLocation_flat (fields : JObj) (sgnJ hashV : JVal)
    (hprv : truthy (fields.lookup "prv") = false) :
    hashLocation (.obj ((fields.set "sig" sgnJ).set "hash" hashV)) = hashV := by
  unfold hashLocation
  rw [getField_prv_double_set, hprv]
  simp only [Bool.false_eq_true, if_false]
  rw [getField_obj, JObj.lookup_set_same]

/-- The flat privilege-auth draft of the repository test suite. -/
def flatFields : JObj := JObj.ofList [("p", .str "tap"), ("op", .str "privilege-auth"),
  ("sig", .null), ("hash", .null), ("salt", .str "test_salt")]

/-- The flat draft as a value. -/
def flatDraft : JVal := .obj flatFields

/-- A keypair of the right buffer lengths. -/
def zeroKeypair : Keypair := ⟨List.replicate 32 0, List.replicate 33 0⟩

/-- C1 counterexample: the claim says a draft that fails self-verification is
never returned as a successful result with `test.valid == false` — the
failure must be raised.  The code raises nothing: with a curve environment
whose verdict is false (within the black-box contract — and reachable with
the real curve whenever the self-check re-derives a different text than was
signed, see the messageKey note in the spec), `signAndVerify` returns
SUCCESSFULLY with `test.valid = false`. -/
theorem C1_counterexample :
    (signAndVerify falseVerifyEnv flatDraft zeroKeypair "m" none).map
      (fun r => r.test.valid) = .ok false := by
  decide

/-- C1 amended: when `signAndVerify` returns successfully, the draft's sig
and hash fields at the flat or nested location are indeed non-null (a
signature object and a hex string have been written); but the
self-verification verdict is passed through as `test.valid`, and a draft
failing self-verification IS returned as a successful result with
`test.valid == false` — no fatal construction error exists in the code. -/
theorem C1_amended_sig_hash_written (E : Env) (draft : JVal) (kp : Keypair)
    (msg : String) (mk : Option String) (r : VerificationResult) (d : JVal)
    (h : signAndVerifyD E draft kp msg mk = .ok (r, d)) :
    signAndVerify E draft kp msg mk = .ok r ∧
    (∃ sgn : Signature, sigLocation d = sgn.toJVal) ∧
    (∃ hex : String, hashLocation d = .str hex) := by
  have hapi : signAndVerify E draft kp msg mk = .ok r := by
    unfold signAndVerify
    rw [h]
    rfl
  refine ⟨hapi, ?_⟩
  unfold signAndVerifyD at h
  simp only [] at h
  split at h
  · exact absurd h (by simp)
  · rename_i signed heq
    split at h
    · exact absurd h (by simp)
    · rename_i result heq2
      cases h
      obtain ⟨hm, hpk, hsalt⟩ := sign_ok_shapes E _ _ _ _ heq
      unfold draftSalt at hsalt
      by_cases hprv : truthy (getField draft "prv") = true
      · rw [if_pos hprv] at hsalt
        obtain ⟨pfs, hpfs⟩ := exists_obj_of_getField_isStr _ _ hsalt
        obtain ⟨fields, hfields⟩ := exists_obj_of_getField_ne_undef draft "prv"
          (by rw [hpfs]; simp)
        subst hfields
        rw [getField_obj] at hpfs
        rw [writeSigHash_nested fields pfs signed.1 signed.2 hpfs]
        exact ⟨⟨signed.1, sigLocation_nested fields pfs _ _⟩,
               ⟨bytesToHexString signed.2, hashLocation_nested fields pfs _ _⟩⟩
      · have hprvf : truthy (getField draft "prv") = false :=
          Bool.not_eq_true _ ▸ eq_false_of_ne_true hprv
        rw [if_neg hprv] at hsalt
        obtain ⟨fields, hfields⟩ := exists_obj_of_getField_isStr _ _ hsalt
        subst hfields
        rw [getField_obj] at hprvf
        rw [writeSigHash_flat fields signed.1 signed.2 hprvf]
        exact ⟨⟨signed.1, sigLocation_flat fields _ _ hprvf⟩,
               ⟨bytesToHexString signed.2, hashLocation_flat fields _ _ hprvf⟩⟩

/-- The mutated draft of the C1/C10 witness run. -/
def flatRunDraft : JVal := writeSigHash flatDraft ⟨"0", "0", "0"⟩ (List.replicate 32 0)

/-- The verification result of the C1/C10 witness run. -/
def flatRunResult : VerificationResult :=
  ⟨⟨true, bytesToHexString (List.replicate 33 0), bytesToHexString (List.replicate 33 0)⟩,
   jsonStr flatRunDraft⟩

/-- C1 witness: a successful concrete run; the amended statement holds at it. -/
theorem C1_witness :
    signAndVerifyD okEnv flatDraft zeroKeypair "test_baseMessage" none
      = .ok (flatRunResult, flatRunDraft) ∧
    (signAndVerify okEnv flatDraft zeroKeypair "test_baseMessage" none = .ok flatRunResult ∧
     (∃ sgn : Signature, sigLocation flatRunDraft = sgn.toJVal) ∧
     (∃ hex : String, hashLocation flatRunDraft = .str hex)) :=
  ⟨by decide,
   C1_amended_sig_hash_written okEnv flatDraft zeroKeypair "test_baseMessage" none
     flatRunResult flatRunDraft (by decide)⟩

/-- C10: for a flat draft (no `prv` key), `signAndVerify` mutates only the
`sig` and `hash` properties — the final draft is exactly the original object
with those two keys overwritten in place, every other property reads
unchanged — and the returned `result` string is the JSON serialization of
that same mutated draft.  Confirmed. -/
theorem C10_flat_frame (E : Env) (fields : JObj) (kp : Keypair) (msg : String)
    (mk : Option String) (r : VerificationResult) (d : JVal)
    (hflat : fields.hasKey "prv" = false)
    (h : signAndVerifyD E (.obj fields) kp msg mk = .ok (r, d)) :
    (∃ (sgn : Signature) (hex : String),
        d = .obj ((fields.set "sig" sgn.toJVal).set "hash" (.str hex))) ∧
    (∀ k, k ≠ "sig" → k ≠ "hash" → getField d k = getField (.obj fields) k) ∧
    r.result = jsonStr d := by
  have hlp : fields.lookup "prv" = .undefined := JObj.lookup_of_not_hasKey fields "prv" hflat
  have hprv : truthy (fields.lookup "prv") = false := by
    rw [hlp]
    rfl
  unfold signAndVerifyD at h
  simp only [] at h
  split at h
  · exact absurd h (by simp)
  · rename_i signed heq
    split at h
    · exact absurd h (by simp)
    · rename_i result heq2
      cases h
      have hw := writeSigHash_flat fields signed.1 signed.2 hprv
      refine ⟨⟨signed.1, bytesToHexString signed.2, hw⟩, ?_, ?_⟩
      · intro k hk1 hk2
        rw [hw, getField_obj, getField_obj, JObj.lookup_set_ne _ _ _ _ hk2,
            JObj.lookup_set_ne _ _ _ _ hk1]
      · exact (verify_ok_shape E _ _ _ _ _ heq2).1

/-- C10 witness: the frame condition at a successful concrete run on the flat
draft. -/
theorem C10_witness :
    flatFields.hasKey "prv" = false ∧
    signAndVerifyD okEnv (.obj flatFields) zeroKeypair "test_baseMessage" none
      = .ok (flatRunResult, flatRunDraft) ∧
    ((∃ (sgn : Signature) (hex : String),
        flatRunDraft = .obj ((flatFields.set "sig" sgn.toJVal).set "hash" (.str hex))) ∧
     (∀ k, k ≠ "sig" → k ≠ "hash" →
        getField flatRunDraft k = getField (.obj flatFields) k) ∧
     flatRunResult.result = jsonStr flatRunDraft) :=
  ⟨by decide, by decide,
   C10_flat_frame okEnv flatFields zeroKeypair "test_baseMessage" none
     flatRunResult flatRunDraft (by decide) (by decide)⟩

/-- The top-level property list of the mint draft. -/
def mintFields (ticker : String) (amount : Int) (address salt : String) : JObj :=
  JObj.ofList [("p", .str "tap"), ("op", .str "token-mint"),
    ("tick", .str (jsToLowerCase ticker)), ("amt", .num amount),
    ("prv", mkObj [("sig", .null), ("hash", .null),
                   ("address", .str address), ("salt", .str salt)])]

/-- The property list of the mint draft's nested `prv` object. -/
def mintPrvFields (address salt : String) : JObj :=
  JObj.ofList [("sig", .null), ("hash", .null),
               ("address", .str address), ("salt", .str salt)]

theorem mint_draft_after_write (ticker : String) (amount : Int) (address salt : String)
    (sgn : Signature) (mh : List Nat) :
    writeSigHash (mintProtocol ticker amount address salt) sgn mh
      = .obj ((mintFields ticker amount address salt).set "prv"
          (.obj (((mintPrvFields address salt).set "sig" sgn.toJVal).set "hash"
            (.str (bytesToHexString mh))))) :=
  writeSigHash_nested _ _ _ _ rfl

theorem mint_nested_reads (ticker : String) (amount : Int) (address salt : String)
    (sgn : Signature) (mh : List Nat) :
    getField (getField (writeSigHash (mintProtocol ticker amount address salt) sgn mh)
        "prv") "sig" = sgn.toJVal ∧
    getField (writeSigHash (mintProtocol ticker amount address salt) sgn mh) "sig"
      = .undefined := by
  rw [mint_draft_after_write]
  constructor
  · rw [getField_obj, JObj.lookup_set_same, getField_obj,
        JObj.lookup_set_ne _ _ _ _ (by decide), JObj.lookup_set_same]
  · rw [getField_obj, JObj.lookup_set_ne _ _ _ _ (by decide)]
    rfl

/-- C9: the text `signMint` signs is exactly
"tap-token-mint-" ++ tick ++ "-" ++ amt ++ "-" ++ address ++ "-" built from
the constructed draft (trailing hyphen included) with the ticker lower-cased
before inclusion; and whenever the assembly returns a draft, the signature
object sits under the nested `prv` object while the draft top level has no
`sig` property at all.  Confirmed. -/
theorem C9_signMint_message_and_nesting (E : Env) (privKey pubKey : JVal)
    (ticker : String) (amount : Int) (address salt : String) (kp : Keypair)
    (sg : List Nat) (rid : Option Int)
    (hkp : getKeypairBuff privKey pubKey = .ok kp)
    (hsig : E.ecc.signRecoverable
        (E.sha256 (utf8Bytes (mintBaseMessage ticker amount address salt ++ salt)))
        kp.privKeyBuffer = .ok (sg, rid))
    (hlen : sg.length = 64) (hbytes : ∀ x ∈ sg, x < 256) :
    mintBaseMessage ticker amount address salt
      = "tap-token-mint-" ++ jsToLowerCase ticker ++ "-" ++ intToDecString amount
        ++ "-" ++ address ++ "-" ∧
    signMintD E privKey pubKey ticker amount address salt
      = signAndVerifyD E (mintProtocol ticker amount address salt) kp
          (mintBaseMessage ticker amount address salt) none ∧
    ∀ (r : VerificationResult) (d : JVal),
      signAndVerifyD E (mintProtocol ticker amount address salt) kp
          (mintBaseMessage ticker amount address salt) none = .ok (r, d) →
        getField (getField d "prv") "sig"
          = Signature.toJVal ⟨recIdToString rid,
              natToDecString (ofDigits 256 (sg.take 32)),
              natToDecString (ofDigits 256 (sg.drop 32))⟩ ∧
        getField d "sig" = .undefined := by
  refine ⟨rfl, ?_, ?_⟩
  · unfold signMintD
    rw [hkp]
  · intro r d hok
    have hsigval : sign E (.str (mintBaseMessage ticker amount address salt))
        (.buf kp.privKeyBuffer) (draftSalt (mintProtocol ticker amount address salt))
        = .ok (⟨recIdToString rid, natToDecString (ofDigits 256 (sg.take 32)),
                natToDecString (ofDigits 256 (sg.drop 32))⟩,
               sha256Str E (mintBaseMessage ticker amount address salt ++ salt)) := by
      rw [show draftSalt (mintProtocol ticker amount address salt) = JVal.str salt from rfl]
      rw [sign_str]
      rw [signBody_ok E (mintBaseMessage ticker amount address salt) salt
        kp.privKeyBuffer sg rid hsig hlen hbytes]
    unfold signAndVerifyD at hok
    simp only [] at hok
    split at hok
    · exact absurd hok (by simp)
    · rename_i signed heq
      rw [hsigval] at heq
      injection heq with heq
      split at hok
      · exact absurd hok (by simp)
      · cases hok
        rw [← heq]
        exact mint_nested_reads ticker amount address salt _ _

/-- C9 witness: the statement at concrete keys, ticker "TICK", amount 5,
address "addr" and salt "s" with the all-succeeding environment. -/
theorem C9_witness :
    getKeypairBuff (.buf (List.replicate 32 0)) (.buf (List.replicate 33 0))
      = .ok zeroKeypair ∧
    okEnv.ecc.signRecoverable
      (okEnv.sha256 (utf8Bytes (mintBaseMessage "TICK" 5 "addr" "s" ++ "s")))
      zeroKeypair.privKeyBuffer = .ok (List.replicate 64 0, some 0) ∧
    (List.replicate 64 0 : List Nat).length = 64 ∧
    (∀ x ∈ (List.replicate 64 0 : List Nat), x < 256) ∧
    (mintBaseMessage "TICK" 5 "addr" "s"
      = "tap-token-mint-" ++ jsToLowerCase "TICK" ++ "-" ++ intToDecString 5
        ++ "-" ++ "addr" ++ "-" ∧
     signMintD okEnv (.buf (List.replicate 32 0)) (.buf (List.replicate 33 0))
        "TICK" 5 "addr" "s"
      = signAndVerifyD okEnv (mintProtocol "TICK" 5 "addr" "s") zeroKeypair
          (mintBaseMessage "TICK" 5 "addr" "s") none ∧
     ∀ (r : VerificationResult) (d : JVal),
      signAndVerifyD okEnv (mintProtocol "TICK" 5 "addr" "s") zeroKeypair
          (mintBaseMessage "TICK" 5 "addr" "s") none = .ok (r, d) →
        getField (getField d "prv") "sig"
          = Signature.toJVal ⟨recIdToString (some 0),
              natToDecString (ofDigits 256 ((List.replicate 64 0 : List Nat).take 32)),
              natToDecString (ofDigits 256 ((List.replicate 64 0 : List Nat).drop 32))⟩ ∧
        getField d "sig" = .undefined) :=
  ⟨rfl, rfl, by decide, by decide,
   C9_signMint_message_and_nesting okEnv _ _ "TICK" 5 "addr" "s" zeroKeypair
     (List.replicate 64 0) (some 0) rfl rfl (by decide) (by decide)⟩

/-- C6 witness: the amended validation rule at concrete inputs — a numeric
message is rejected as "Invalid input types". -/
theorem C6_witness :
    (¬ ((JVal.num 3).isStr = true ∧ (JVal.buf (List.replicate 32 0)).isBuf = true ∧
        (JVal.str "s").isStr = true)) ∧
    sign okEnv (.num 3) (.buf (List.replicate 32 0)) (.str "s")
      = .error ⟨"Error", "Invalid input types"⟩ :=
  ⟨by decide,
   (C6_amended_validation okEnv (.num 3) (.buf (List.replicate 32 0)) (.str "s")).mpr
     (by decide)⟩

end TapHelper
